import Mathlib

/-!
Verification development for the multi-language codebase-graph builder
(`CodebaseVisualizer` in `Server/GraphBuilder.py`).

Strings are modelled as `List Char` (`Str`); Python dictionaries as
association lists preserving insertion order (CPython dicts iterate in
insertion order); the `networkx.DiGraph` as ordered association lists of
nodes and of edges keyed by the `(source, target)` pair, with attribute
merging on re-insertion, exactly as `add_node`/`add_edge` behave.
-/

set_option maxHeartbeats 1000000

namespace GraphBuilder

abbrev Str := List Char

/-- Convenience: the character list of a string literal. -/
def str (x : String) : Str := x.data

/-- ASCII model of Python's word character class `\w` (`[A-Za-z0-9_]`). -/
def wordChar (c : Char) : Bool := c.isAlphanum || c = '_'

/-- Python's whitespace class `\s`. -/
def spaceChar (c : Char) : Bool :=
  c = ' ' || c = '\t' || c = '\n' || c = '\r' || c = '\x0b' || c = '\x0c'

/-- Line-break characters recognised by Python's `str.splitlines`. -/
def lineBreakChar (c : Char) : Bool :=
  c = '\n' || c = '\r' || c = '\x0b' || c = '\x0c' ||
  c = '\x1c' || c = '\x1d' || c = '\x1e' || c = '\x85' ||
  c = (Char.ofNat 0x2028) || c = (Char.ofNat 0x2029)

def splitlinesAux : Str → Str → List Str
  | [], acc => if acc = [] then [] else [acc.reverse]
  | '\r' :: '\n' :: rest, acc => acc.reverse :: splitlinesAux rest []
  | c :: rest, acc =>
      if lineBreakChar c then acc.reverse :: splitlinesAux rest []
      else splitlinesAux rest (c :: acc)

/-- Model of Python's `str.splitlines` (no trailing empty line for a
trailing newline; the empty string yields no lines). -/
def splitlines (s : Str) : List Str := splitlinesAux s []

/-- `sep.join(xs)` for a one-character separator. -/
def joinWith (sep : Char) : List Str → Str
  | [] => []
  | [l] => l
  | l :: ls => l ++ sep :: joinWith sep ls

/-- `'\n'.join(xs)`. -/
def joinNL (ls : List Str) : Str := joinWith '\n' ls

/-- Python's `str.strip()` (strip whitespace from both ends). -/
def pyStrip (s : Str) : Str :=
  ((s.dropWhile spaceChar).reverse.dropWhile spaceChar).reverse

/-- `enumerate(lines, 1)`: pair each line with its 1-based line number. -/
def enumerate1 (l : List α) : List (Nat × α) :=
  l.enum.map (fun p => (p.1 + 1, p.2))

/-- Association-list model of a Python dict: lookup. -/
def dictGet? (k : α) [DecidableEq α] : List (α × β) → Option β
  | [] => none
  | (k', v) :: rest => if k' = k then some v else dictGet? k rest

/-- `d.get(k, dflt)`. -/
def dictGetD [DecidableEq α] (k : α) (d : List (α × β)) (dflt : β) : β :=
  (dictGet? k d).getD dflt

/-- `d[k] = v`: update in place if the key exists (keeping its position,
as CPython dicts do), otherwise append. -/
def dictInsert [DecidableEq α] (k : α) (v : β) : List (α × β) → List (α × β)
  | [] => [(k, v)]
  | (k', v') :: rest =>
      if k' = k then (k, v) :: rest else (k', v') :: dictInsert k v rest

/-- `d.setdefault(k, []).append(x)`: the `if k not in d: d[k] = []` /
`d[k].append(x)` idiom used for reference lists and the symbol index. -/
def dictPush [DecidableEq α] (k : α) (x : β) : List (α × List β) → List (α × List β)
  | [] => [(k, [x])]
  | (k', vs) :: rest =>
      if k' = k then (k', vs ++ [x]) :: rest else (k', vs) :: dictPush k x rest

/-! ## Snippet chunker (`_chunk_code`) -/

structure Chunk where
  code_snippet : Str
  start_line : Nat
  end_line : Nat
deriving DecidableEq

/-- `range(0, stop, step)` for a positive step: `⌈stop/step⌉` values
`0, step, 2*step, …`. -/
def pyRange0 (stop step : Nat) : List Nat :=
  (List.range ((stop + step - 1) / step)).map (fun j => j * step)

/-- The body of `_chunk_code`'s loop at index `i`:
`chunk_lines = lines[i:i+k]`, 1-based `start_line = i + 1`,
`end_line = i + len(chunk_lines)`. -/
def chunkAt (lines : List Str) (k i : Nat) : Chunk :=
  { code_snippet := joinNL ((lines.drop i).take k),
    start_line := i + 1,
    end_line := i + ((lines.drop i).take k).length }

/-- `for i in range(0, len(lines), lines_per_chunk)` over already split
lines. -/
def chunkList (lines : List Str) (k : Nat) : List Chunk :=
  (pyRange0 lines.length k).map (chunkAt lines k)

/-- `_chunk_code(code, lines_per_chunk)`. Returns `none` for
`lines_per_chunk = 0`, where the source raises `ValueError` from
`range(0, len(lines), 0)`. -/
def chunk_code (code : Str) (lines_per_chunk : Nat) : Option (List Chunk) :=
  if lines_per_chunk = 0 then none
  else some (chunkList (splitlines code) lines_per_chunk)

/-! ## Language classifier (`_detect_language`) -/

/-- The `language_extensions` table, in its insertion order. -/
def language_extensions : List (Str × List Str) :=
  [(str "python", [str ".py"]),
   (str "cpp", [str ".c", str ".cpp", str ".h", str ".hpp", str ".cc",
                str ".cxx", str ".hxx"]),
   (str "java", [str ".java"]),
   (str "go", [str ".go"])]

def supported_languages : List Str :=
  [str "python", str "cpp", str "java", str "go"]

/-- The extension part of `os.path.splitext` (CPython: the extension
starts at the last dot of the basename, provided some non-dot character
precedes it within the basename; leading dots alone give no extension). -/
def splitext_ext (p : Str) : Str :=
  let base := (p.reverse.takeWhile (fun c => c ≠ '/')).reverse
  let afterDotRev := base.reverse.takeWhile (fun c => c ≠ '.')
  if afterDotRev.length = base.length then []
  else
    let beforeDot := base.take (base.length - afterDotRev.length - 1)
    if beforeDot.any (fun c => c ≠ '.') then '.' :: afterDotRev.reverse
    else []

/-- `_detect_language`: lowercase the extension (ASCII model of
`str.lower`, which agrees with Python on every extension in the table),
then return the first language whose extension list contains it. -/
def detect_language (p : Str) : Str :=
  let ext := (splitext_ext p).map Char.toLower
  match language_extensions.find? (fun le => decide (ext ∈ le.2)) with
  | some le => le.1
  | none => str "unknown"

/-! ## A small backtracking regex engine

The pattern-based analyzers use Python `re` patterns whose only
quantifiers sit on single character classes and whose alternations are
between literals, so a standard leftmost, greedy, backtracking matcher
reproduces `re.search` exactly on them.  `reMatch r s` returns every way
of matching `r` against a prefix of `s`, in backtracking preference
order, as `(captured groups, remaining suffix)`. -/

inductive Re where
  | eps
  | cls (p : Char → Bool)
  | lit (l : Str)
  | star (p : Char → Bool)
  | plus (p : Char → Bool)
  | opt (r : Re)
  | cat (r1 r2 : Re)
  | alt (r1 r2 : Re)
  | grp (r : Re)

/-- Greedy choices for `p*` on `s`: suffixes after consuming a run of
`p`-characters, longest first. -/
def starChoices (p : Char → Bool) (s : Str) : List Str :=
  (List.range ((s.takeWhile p).length + 1)).reverse.map (fun i => s.drop i)

def reMatch : Re → Str → List (List Str × Str)
  | .eps, s => [([], s)]
  | .cls _, [] => []
  | .cls p, c :: rest => if p c then [([], rest)] else []
  | .lit l, s => if l.isPrefixOf s then [([], s.drop l.length)] else []
  | .star p, s => (starChoices p s).map (fun s' => ([], s'))
  | .plus _, [] => []
  | .plus p, c :: rest =>
      if p c then (starChoices p rest).map (fun s' => ([], s')) else []
  | .opt r, s => reMatch r s ++ [([], s)]
  | .cat r1 r2, s =>
      (reMatch r1 s).flatMap (fun pr =>
        (reMatch r2 pr.2).map (fun pr2 => (pr.1 ++ pr2.1, pr2.2)))
  | .alt r1 r2, s => reMatch r1 s ++ reMatch r2 s
  | .grp r, s =>
      (reMatch r s).map (fun pr =>
        (pr.1 ++ [s.take (s.length - pr.2.length)], pr.2))

/-- `re.search`: try each start position from the left, take the first
match (in backtracking order); returns the captured groups. -/
def reSearch (r : Re) : Str → Option (List Str)
  | [] =>
      match reMatch r [] with
      | res :: _ => some res.1
      | [] => none
  | c :: t =>
      match reMatch r (c :: t) with
      | res :: _ => some res.1
      | [] => reSearch r t

/-- `m.group(1)` of a successful search. -/
def reGroup1 (r : Re) (s : Str) : Option Str :=
  (reSearch r s).bind (fun cs => cs.head?)

/-- Truthiness of `re.search(...)`. -/
def reTest (r : Re) (s : Str) : Bool := (reSearch r s).isSome

/-! The concrete patterns of the C++/Java/Go analyzers. -/

/-- `#include\s+[<"]([^>"]+)[>"]` -/
def cpp_include_pattern : Re :=
  .cat (.lit (str "#include")) <| .cat (.plus spaceChar) <|
  .cat (.cls (fun c => c = '<' || c = '"')) <|
  .cat (.grp (.plus (fun c => c ≠ '>' && c ≠ '"')))
       (.cls (fun c => c = '>' || c = '"'))

/-- `(?:class|struct)\s+(\w+)` -/
def cpp_class_pattern : Re :=
  .cat (.alt (.lit (str "class")) (.lit (str "struct"))) <|
  .cat (.plus spaceChar) (.grp (.plus wordChar))

/-- `(\w+)\s*\([^)]*\)\s*(?:const|override|final|noexcept)?\s*(?:{|;)` -/
def cpp_function_pattern : Re :=
  .cat (.grp (.plus wordChar)) <| .cat (.star spaceChar) <|
  .cat (.cls (fun c => c = '(')) <| .cat (.star (fun c => c ≠ ')')) <|
  .cat (.cls (fun c => c = ')')) <| .cat (.star spaceChar) <|
  .cat (.opt (.alt (.lit (str "const")) (.alt (.lit (str "override"))
        (.alt (.lit (str "final")) (.lit (str "noexcept")))))) <|
  .cat (.star spaceChar) (.cls (fun c => c = Char.ofNat 123 || c = ';'))

/-- `namespace\s+(\w+)` -/
def cpp_namespace_pattern : Re :=
  .cat (.lit (str "namespace")) <|
  .cat (.plus spaceChar) (.grp (.plus wordChar))

/-- `package\s+([\w.]+)` -/
def java_package_pattern : Re :=
  .cat (.lit (str "package")) <|
  .cat (.plus spaceChar) (.grp (.plus (fun c => wordChar c || c = '.')))

/-- `import\s+([\w.]+(?:\.\*)?)` -/
def java_import_pattern : Re :=
  .cat (.lit (str "import")) <| .cat (.plus spaceChar) <|
  .grp (.cat (.plus (fun c => wordChar c || c = '.')) (.opt (.lit (str ".*"))))

/-- `(?:public|private|protected)?\s*(?:abstract|final)?\s*class\s+(\w+)` -/
def java_class_pattern : Re :=
  .cat (.opt (.alt (.lit (str "public"))
        (.alt (.lit (str "private")) (.lit (str "protected"))))) <|
  .cat (.star spaceChar) <|
  .cat (.opt (.alt (.lit (str "abstract")) (.lit (str "final")))) <|
  .cat (.star spaceChar) <| .cat (.lit (str "class")) <|
  .cat (.plus spaceChar) (.grp (.plus wordChar))

/-- `(?:public|private|protected)?\s*interface\s+(\w+)` -/
def java_interface_pattern : Re :=
  .cat (.opt (.alt (.lit (str "public"))
        (.alt (.lit (str "private")) (.lit (str "protected"))))) <|
  .cat (.star spaceChar) <| .cat (.lit (str "interface")) <|
  .cat (.plus spaceChar) (.grp (.plus wordChar))

/-- `(?:public|private|protected)?\s*(?:static|final|abstract)?\s*(?:[\w<>[\],\s]+)\s+(\w+)\s*\([^)]*\)` -/
def java_method_pattern : Re :=
  .cat (.opt (.alt (.lit (str "public"))
        (.alt (.lit (str "private")) (.lit (str "protected"))))) <|
  .cat (.star spaceChar) <|
  .cat (.opt (.alt (.lit (str "static"))
        (.alt (.lit (str "final")) (.lit (str "abstract"))))) <|
  .cat (.star spaceChar) <|
  .cat (.plus (fun c => wordChar c || c = '<' || c = '>' || c = '[' ||
                        c = ']' || c = ',' || spaceChar c)) <|
  .cat (.plus spaceChar) <| .cat (.grp (.plus wordChar)) <|
  .cat (.star spaceChar) <| .cat (.cls (fun c => c = '(')) <|
  .cat (.star (fun c => c ≠ ')')) (.cls (fun c => c = ')'))

/-- `package\s+(\w+)` -/
def go_package_pattern : Re :=
  .cat (.lit (str "package")) <| .cat (.plus spaceChar) (.grp (.plus wordChar))

/-- `import\s+"([^"]+)"` -/
def go_import_single_pattern : Re :=
  .cat (.lit (str "import")) <| .cat (.plus spaceChar) <|
  .cat (.cls (fun c => c = '"')) <|
  .cat (.grp (.plus (fun c => c ≠ '"'))) (.cls (fun c => c = '"'))

/-- `import\s+\(` -/
def go_import_multi_start_pattern : Re :=
  .cat (.lit (str "import")) <|
  .cat (.plus spaceChar) (.cls (fun c => c = '('))

/-- `\s*"([^"]+)"` -/
def go_import_multi_line_pattern : Re :=
  .cat (.star spaceChar) <| .cat (.cls (fun c => c = '"')) <|
  .cat (.grp (.plus (fun c => c ≠ '"'))) (.cls (fun c => c = '"'))

/-- `func\s+(?:\([^)]+\)\s+)?(\w+)` -/
def go_func_pattern : Re :=
  .cat (.lit (str "func")) <| .cat (.plus spaceChar) <|
  .cat (.opt (.cat (.cls (fun c => c = '(')) <|
        .cat (.plus (fun c => c ≠ ')')) <|
        .cat (.cls (fun c => c = ')')) (.plus spaceChar)))
      (.grp (.plus wordChar))

/-- `type\s+(\w+)\s+struct` -/
def go_struct_pattern : Re :=
  .cat (.lit (str "type")) <| .cat (.plus spaceChar) <|
  .cat (.grp (.plus wordChar)) <|
  .cat (.plus spaceChar) (.lit (str "struct"))

/-- `type\s+(\w+)\s+interface` -/
def go_interface_pattern : Re :=
  .cat (.lit (str "type")) <| .cat (.plus spaceChar) <|
  .cat (.grp (.plus wordChar)) <|
  .cat (.plus spaceChar) (.lit (str "interface"))

/-! ## Per-file analysis results -/

/-- The value of a `docstring` dict entry: absent key (pattern-based
symbols and variable assignments), Python `None`, or a string. -/
inductive DocVal where
  | absent
  | noneV
  | strV (s : Str)
deriving DecidableEq

/-- One entry of a per-file symbol dict
(`{'type': .., 'line_no': .., 'context': .., ['docstring': ..]}`). -/
structure SymInfo where
  type : Str
  line_no : Nat
  context : Str
  docstring : DocVal
deriving DecidableEq

/-- The `(imports, symbols)` a language analyzer contributes for a file. -/
structure AnalyzeResult where
  imports : List (Str × Nat)
  symbols : List (Str × SymInfo)
deriving DecidableEq

/-- `_get_context_around_line` with the default `context_lines = 3`:
`lines[max(0, line_no-4) : min(len(lines), line_no+3)]`, joined by
newlines.  The analyzers call it while `self.file_contents[file_path]`
holds exactly the content being analyzed, so it is passed directly. -/
def get_context_around_line (content : Str) (line_no : Nat) : Str :=
  let lines := splitlines content
  joinNL ((lines.drop (line_no - 4)).take (min lines.length (line_no + 3) - (line_no - 4)))

/-- The keyword stoplist of the C++ and Java analyzers. -/
def keyword_stoplist : List Str :=
  [str "if", str "while", str "for", str "switch", str "return"]

/-- One line of `_analyze_cpp_file`'s loop. -/
def analyze_cpp_line (content : Str) (st : AnalyzeResult) (ln : Nat × Str) :
    AnalyzeResult :=
  let line_no := ln.1
  let line := ln.2
  let st :=
    match reGroup1 cpp_include_pattern line with
    | some m => { st with imports := st.imports ++ [(m, line_no)] }
    | none => st
  let st :=
    match reGroup1 cpp_class_pattern line with
    | some class_name =>
        { st with symbols := (dictInsert class_name
            ⟨str "class", line_no, get_context_around_line content line_no,
             .absent⟩ st.symbols) }
    | none => st
  let st :=
    match reGroup1 cpp_function_pattern line with
    | some function_name =>
        if ¬ (str "#").isPrefixOf (pyStrip line) ∧
           ¬ (str "//").isPrefixOf (pyStrip line) ∧
           function_name ∉ keyword_stoplist then
          { st with symbols := (dictInsert function_name
              ⟨str "function", line_no, get_context_around_line content line_no,
               .absent⟩ st.symbols) }
        else st
    | none => st
  match reGroup1 cpp_namespace_pattern line with
  | some namespace_name =>
      { st with symbols := (dictInsert namespace_name
          ⟨str "namespace", line_no, get_context_around_line content line_no,
           .absent⟩ st.symbols) }
  | none => st

/-- `_analyze_cpp_file`. -/
def analyze_cpp_file (content : Str) : AnalyzeResult :=
  (enumerate1 (splitlines content)).foldl (analyze_cpp_line content) ⟨[], []⟩

/-- One line of `_analyze_java_file`'s loop. -/
def analyze_java_line (content : Str) (st : AnalyzeResult) (ln : Nat × Str) :
    AnalyzeResult :=
  let line_no := ln.1
  let line := ln.2
  let st :=
    match reGroup1 java_package_pattern line with
    | some m => { st with imports := st.imports ++ [(m, line_no)] }
    | none => st
  let st :=
    match reGroup1 java_import_pattern line with
    | some m => { st with imports := st.imports ++ [(m, line_no)] }
    | none => st
  let st :=
    match reGroup1 java_class_pattern line with
    | some class_name =>
        { st with symbols := (dictInsert class_name
            ⟨str "class", line_no, get_context_around_line content line_no,
             .absent⟩ st.symbols) }
    | none => st
  let st :=
    match reGroup1 java_interface_pattern line with
    | some interface_name =>
        { st with symbols := (dictInsert interface_name
            ⟨str "interface", line_no, get_context_around_line content line_no,
             .absent⟩ st.symbols) }
    | none => st
  match reGroup1 java_method_pattern line with
  | some method_name =>
      if method_name ∉ keyword_stoplist then
        { st with symbols := (dictInsert method_name
            ⟨str "method", line_no, get_context_around_line content line_no,
             .absent⟩ st.symbols) }
      else st
  | none => st

/-- `_analyze_java_file`. -/
def analyze_java_file (content : Str) : AnalyzeResult :=
  (enumerate1 (splitlines content)).foldl (analyze_java_line content) ⟨[], []⟩

/-- The function/struct/interface checks shared by both branches of the
Go line loop (they run even on lines inside an `import (` block, which
fall through without `continue`). -/
def analyze_go_symbols (content : Str) (st : AnalyzeResult) (ln : Nat × Str) :
    AnalyzeResult :=
  let line_no := ln.1
  let line := ln.2
  let st :=
    match reGroup1 go_func_pattern line with
    | some func_name =>
        { st with symbols := (dictInsert func_name
            ⟨str "function", line_no, get_context_around_line content line_no,
             .absent⟩ st.symbols) }
    | none => st
  let st :=
    match reGroup1 go_struct_pattern line with
    | some struct_name =>
        { st with symbols := (dictInsert struct_name
            ⟨str "struct", line_no, get_context_around_line content line_no,
             .absent⟩ st.symbols) }
    | none => st
  match reGroup1 go_interface_pattern line with
  | some interface_name =>
      { st with symbols := (dictInsert interface_name
          ⟨str "interface", line_no, get_context_around_line content line_no,
           .absent⟩ st.symbols) }
  | none => st

/-- One line of `_analyze_go_file`'s loop; the boolean is
`in_import_block`.  `import (` lines and the closing `)` line `continue`
past the symbol checks; ordinary lines inside the block do not. -/
def analyze_go_line (content : Str) (acc : AnalyzeResult × Bool)
    (ln : Nat × Str) : AnalyzeResult × Bool :=
  let st := acc.1
  let in_import_block := acc.2
  let line_no := ln.1
  let line := ln.2
  let st :=
    match reGroup1 go_package_pattern line with
    | some package_name =>
        { st with imports := st.imports ++
            [(str "package " ++ package_name, line_no)] }
    | none => st
  let st :=
    match reGroup1 go_import_single_pattern line with
    | some m => { st with imports := st.imports ++ [(m, line_no)] }
    | none => st
  if reTest go_import_multi_start_pattern line then (st, true)
  else if in_import_block then
    if pyStrip line = [')'] then (st, false)
    else
      let st :=
        match reGroup1 go_import_multi_line_pattern line with
        | some m => { st with imports := st.imports ++ [(m, line_no)] }
        | none => st
      (analyze_go_symbols content st ln, true)
  else (analyze_go_symbols content st ln, false)

/-- `_analyze_go_file`. -/
def analyze_go_file (content : Str) : AnalyzeResult :=
  ((enumerate1 (splitlines content)).foldl (analyze_go_line content)
    (⟨[], []⟩, false)).1

/-! ## Python AST model

`_analyze_python_file` and `_find_references_in_python_file` call the
standard-library parser `ast.parse` and then inspect the tree with
`ast.walk`.  The parser is external to the repository, so the pipeline
below is parameterised by a function `pyParse : Str → Option PyModule`
standing for it (`none` models a parse exception, which the source
catches and turns into "this file contributes nothing").  Concrete
theorems instantiate `pyParse` with the actual `ast.parse` output for
the concrete file contents involved. -/

inductive PyCtx where
  | load
  | store
  | del
deriving DecidableEq

mutual
inductive PyExpr where
  | nameE (id : Str) (ctx : PyCtx) (lineno : Nat)
  | attributeE (value : PyExpr) (attr : Str) (ctx : PyCtx) (lineno : Nat)
  | callE (func : PyExpr) (args : List PyExpr) (lineno : Nat)
  | constantE (strVal : Option Str) (lineno : Nat)

inductive PyStmt where
  | functionDef (name : Str) (body : List PyStmt) (lineno endLineno : Nat)
  | classDef (name : Str) (body : List PyStmt) (lineno endLineno : Nat)
  | assign (targets : List PyExpr) (value : PyExpr) (lineno endLineno : Nat)
  | importStmt (names : List Str) (lineno : Nat)
  | importFrom (moduleName : Option Str) (names : List Str) (lineno : Nat)
  | exprStmt (e : PyExpr) (lineno : Nat)
  | passStmt (lineno : Nat)
end

structure PyModule where
  body : List PyStmt

inductive PyNode where
  | stmt (s : PyStmt)
  | expr (e : PyExpr)

def stmtChildren : PyStmt → List PyNode
  | .functionDef _ body _ _ => body.map .stmt
  | .classDef _ body _ _ => body.map .stmt
  | .assign targets value _ _ => targets.map .expr ++ [.expr value]
  | .importStmt _ _ => []
  | .importFrom _ _ _ => []
  | .exprStmt e _ => [.expr e]
  | .passStmt _ => []

def exprChildren : PyExpr → List PyNode
  | .nameE _ _ _ => []
  | .attributeE v _ _ _ => [.expr v]
  | .callE f args _ => .expr f :: args.map .expr
  | .constantE _ _ => []

def nodeChildren : PyNode → List PyNode
  | .stmt s => stmtChildren s
  | .expr e => exprChildren e

mutual
def exprSize : PyExpr → Nat
  | .nameE _ _ _ => 1
  | .attributeE v _ _ _ => exprSize v + 1
  | .callE f args _ => exprSize f + exprListSize args + 1
  | .constantE _ _ => 1

def exprListSize : List PyExpr → Nat
  | [] => 0
  | e :: es => exprSize e + exprListSize es

def stmtSize : PyStmt → Nat
  | .functionDef _ body _ _ => stmtListSize body + 1
  | .classDef _ body _ _ => stmtListSize body + 1
  | .assign targets value _ _ => exprListSize targets + exprSize value + 1
  | .importStmt _ _ => 1
  | .importFrom _ _ _ => 1
  | .exprStmt e _ => exprSize e + 1
  | .passStmt _ => 1

def stmtListSize : List PyStmt → Nat
  | [] => 0
  | s :: ss => stmtSize s + stmtListSize ss
end

def nodeSize : PyNode → Nat
  | .stmt s => stmtSize s
  | .expr e => exprSize e

def queueSize (q : List PyNode) : Nat := (q.map nodeSize).sum

/-- Fuelled breadth-first traversal.  `queueSize` strictly decreases at
each step (`children_size_lt`), so fuel equal to the initial queue size
never runs out before the queue empties. -/
def bfsWalkF : Nat → List PyNode → List PyNode
  | 0, _ => []
  | _ + 1, [] => []
  | fuel + 1, n :: rest => n :: bfsWalkF fuel (rest ++ nodeChildren n)

/-- `ast.walk`: breadth-first traversal (a FIFO queue seeded with the
node, each popped node followed by its children). -/
def bfsWalk (q : List PyNode) : List PyNode := bfsWalkF (queueSize q) q

/-- `ast.walk(tree)` for a parsed module.  The `Module` node itself is
walked first but matches none of the `isinstance` checks of the
analyzer or reference finder, so only the statement/expression nodes
are retained; BFS from the module's body is exactly the remainder of
`ast.walk`'s output order. -/
def ast_walk (m : PyModule) : List PyNode := bfsWalk (m.body.map .stmt)

/-- `ast.get_docstring(node)`: the leading string-constant expression
statement of the body, if any (the whitespace clean-up Python applies to
the docstring text is not modelled; no claim depends on it). -/
def get_docstring : List PyStmt → Option Str
  | .exprStmt (.constantE (some s) _) _ :: _ => some s
  | _ => none

/-- `_extract_python_node_source`: `lines[node.lineno - 1 : node.end_lineno]`. -/
def extract_python_node_source (source : Str) (lineno endLineno : Nat) : Str :=
  joinNL (((splitlines source).drop (lineno - 1)).take (endLineno - (lineno - 1)))

/-- The per-node step of `_analyze_python_file`'s `ast.walk` loop. -/
def analyze_python_node (content : Str) (st : AnalyzeResult) (n : PyNode) :
    AnalyzeResult :=
  match n with
  | .stmt (.importStmt names lineno) =>
      { st with imports := st.imports ++ names.map (fun nm => (nm, lineno)) }
  | .stmt (.importFrom moduleName names lineno) =>
      { st with imports := st.imports ++ names.map (fun nm =>
          (match moduleName with
           | some m => m ++ '.' :: nm
           | none => nm, lineno)) }
  | .stmt (.functionDef name body lineno endLineno) =>
      { st with symbols := (dictInsert name
          ⟨str "function", lineno,
           extract_python_node_source content lineno endLineno,
           match get_docstring body with
           | some d => .strV d
           | none => .noneV⟩ st.symbols) }
  | .stmt (.classDef name body lineno endLineno) =>
      { st with symbols := (dictInsert name
          ⟨str "class", lineno,
           extract_python_node_source content lineno endLineno,
           match get_docstring body with
           | some d => .strV d
           | none => .noneV⟩ st.symbols) }
  | .stmt (.assign targets _ lineno endLineno) =>
      targets.foldl (fun st t =>
        match t with
        | .nameE id _ _ =>
            { st with symbols := (dictInsert id
                ⟨str "variable", lineno,
                 extract_python_node_source content lineno endLineno,
                 .absent⟩ st.symbols) }
        | _ => st) st
  | _ => st

/-- `_analyze_python_file` applied to an already-parsed tree. -/
def analyze_python_ast (content : Str) (m : PyModule) : AnalyzeResult :=
  (ast_walk m).foldl (analyze_python_node content) ⟨[], []⟩

/-- The reference records `(symbol_name, file, line, context)` that
`_find_references_in_python_file` appends, in `ast.walk` order: every
`Name` node in `Load` context and every `Attribute` node in `Load`
context, with no definition-line exclusion. -/
def python_reference_records (content path : Str) (m : PyModule) :
    List (Str × Str × Nat × Str) :=
  (ast_walk m).foldl (fun acc n =>
    match n with
    | .expr (.nameE id .load lineno) =>
        acc ++ [(id, path, lineno, get_context_around_line content lineno)]
    | .expr (.attributeE _ attrName .load lineno) =>
        acc ++ [(attrName, path, lineno, get_context_around_line content lineno)]
    | _ => acc) []

/-! ## Pattern-based reference finders -/

/-- Whole-word containment: `re.search(r'\b' + re.escape(name) + r'\b', line)`
for a (nonempty, word-character) symbol name — every name the analyzers
produce is a `\w+` capture or a Python identifier, for which the word
boundaries reduce to "the neighbouring characters are not word
characters". -/
def containsWordAux (name : Str) (prev : Option Char) : Str → Bool
  | [] => false
  | c :: rest =>
      ((match prev with
        | none => true
        | some p => ! wordChar p) &&
       name.isPrefixOf (c :: rest) &&
       (match (c :: rest).drop name.length with
        | [] => true
        | c' :: _ => ! wordChar c')) ||
      containsWordAux name (some c) rest

def containsWord (name line : Str) : Bool := containsWordAux name none line

/-- All symbol names known across every analyzed file
(`all_symbols = set(); all_symbols.update(symbols_dict.keys())`).
CPython set iteration order is unspecified; it is modelled as
first-occurrence order, which no claim depends on. -/
def allSymbolNames (ms : List (Str × List (Str × SymInfo))) : List Str :=
  (ms.flatMap (fun fs => fs.2.map Prod.fst)).foldl
    (fun acc x => if x ∈ acc then acc else acc ++ [x]) []

/-- The inner `for symbol_name in all_symbols` loop of the pattern-based
reference finders, for one line: a whole-word occurrence yields a
record unless this file's symbol dict lists `symbol_name` with exactly
this line number as its definition line. -/
def pattern_refs_in_line (ms : List (Str × List (Str × SymInfo)))
    (path content : Str) (allSyms : List Str)
    (acc : List (Str × Str × Nat × Str)) (ln : Nat × Str) :
    List (Str × Str × Nat × Str) :=
  allSyms.foldl (fun acc symbol_name =>
    if containsWord symbol_name ln.2 then
      if (match dictGet? path ms with
          | some symbols =>
              match dictGet? symbol_name symbols with
              | some info => decide (info.line_no = ln.1)
              | none => false
          | none => false) then acc
      else acc ++ [(symbol_name, path, ln.1,
                    get_context_around_line content ln.1)]
    else acc) acc

/-- `_find_references_in_cpp_file`: every line is scanned. -/
def cpp_reference_records (ms : List (Str × List (Str × SymInfo)))
    (path content : Str) : List (Str × Str × Nat × Str) :=
  (enumerate1 (splitlines content)).foldl
    (pattern_refs_in_line ms path content (allSymbolNames ms)) []

/-- The line filter shared by the Java and Go reference finders:
comment, `import ` and `package ` lines are skipped. -/
def java_go_skip_line (line : Str) : Bool :=
  (str "//").isPrefixOf (pyStrip line) ||
  (str "/*").isPrefixOf (pyStrip line) ||
  (str "import ").isPrefixOf (pyStrip line) ||
  (str "package ").isPrefixOf (pyStrip line)

/-- `_find_references_in_java_file` (identical to the Go one). -/
def java_reference_records (ms : List (Str × List (Str × SymInfo)))
    (path content : Str) : List (Str × Str × Nat × Str) :=
  (enumerate1 (splitlines content)).foldl (fun acc ln =>
    if java_go_skip_line ln.2 then acc
    else pattern_refs_in_line ms path content (allSymbolNames ms) acc ln) []

/-- `_find_references_in_go_file`. -/
def go_reference_records (ms : List (Str × List (Str × SymInfo)))
    (path content : Str) : List (Str × Str × Nat × Str) :=
  (enumerate1 (splitlines content)).foldl (fun acc ln =>
    if java_go_skip_line ln.2 then acc
    else pattern_refs_in_line ms path content (allSymbolNames ms) acc ln) []

/-! ## Paths and small string helpers -/

/-- The rel path of an entry named `nm` inside the walked directory
`relDir` (`os.path.relpath(os.path.join(root, nm), root_dir)`; the
root itself is `'.'`). -/
def childPath (relDir nm : Str) : Str :=
  if relDir = str "." then nm else relDir ++ '/' :: nm

/-- `os.path.dirname` for relative slash paths. -/
def dirname (p : Str) : Str :=
  match p.reverse.dropWhile (fun c => c ≠ '/') with
  | '/' :: rest => rest.reverse
  | _ => []

/-- `os.path.basename` for relative slash paths. -/
def basename (p : Str) : Str :=
  (p.reverse.takeWhile (fun c => c ≠ '/')).reverse

/-- `os.path.splitext(p)[0]`. -/
def splitext_root (p : Str) : Str := p.take (p.length - (splitext_ext p).length)

def splitSepAux : Str → Str → List Str
  | [], acc => [acc.reverse]
  | '/' :: rest, acc => acc.reverse :: splitSepAux rest []
  | c :: rest, acc => splitSepAux rest (c :: acc)

/-- `p.split(os.sep)` with `os.sep = '/'`. -/
def splitBySep (p : Str) : List Str := splitSepAux p []

/-- `os.sep.join(parts)`. -/
def joinSep (ps : List Str) : Str := joinWith '/' ps

/-- `s.replace('.py', '')`: remove the occurrences of `".py"`, left to
right, non-overlapping. -/
def replacePyExt : Str → Str
  | [] => []
  | '.' :: 'p' :: 'y' :: rest => replacePyExt rest
  | c :: rest => c :: replacePyExt rest

/-- Decimal rendering of a `Nat` (for the `f"{file_path}::snippet::{idx}"`
node ids). -/
def natStr (n : Nat) : Str := (Nat.repr n).data

/-! ## The graph and the builder state -/

inductive AttrVal where
  | aStr (s : Str)
  | aNat (n : Nat)
  | aNone
deriving DecidableEq

abbrev Attrs := List (Str × AttrVal)

/-- Merge new attributes into existing ones, as keyword arguments of
`add_node`/`add_edge` on an existing node/edge do. -/
def attrsMerge (old new : Attrs) : Attrs :=
  new.foldl (fun a kv => dictInsert kv.1 kv.2 a) old

/-- `networkx.DiGraph.add_node`. -/
def addNodeList (nm : Str) (attrs : Attrs) :
    List (Str × Attrs) → List (Str × Attrs)
  | [] => [(nm, attrs)]
  | (n, a) :: rest =>
      if n = nm then (n, attrsMerge a attrs) :: rest
      else (n, a) :: addNodeList nm attrs rest

/-- `networkx.DiGraph.add_edge` on the edge list (at most one edge per
ordered pair; re-adding merges attributes). -/
def addEdgeList (u v : Str) (attrs : Attrs) :
    List ((Str × Str) × Attrs) → List ((Str × Str) × Attrs)
  | [] => [((u, v), attrs)]
  | (k, a) :: rest =>
      if k = (u, v) then (k, attrsMerge a attrs) :: rest
      else (k, a) :: addEdgeList u v attrs rest

/-- A node missing from the graph is auto-created with no attributes
when an edge touches it (networkx behaviour). -/
def ensureNode (nm : Str) (nodes : List (Str × Attrs)) : List (Str × Attrs) :=
  if (dictGet? nm nodes).isSome then nodes else nodes ++ [(nm, [])]

/-- An occurrence record of the symbol index. `symbol_type` is `some`
exactly when the dict carries the key (definitions only); `docstring`
follows `details.get('docstring', '')`. -/
structure Occurrence where
  file : Str
  type : Str
  symbol_type : Option Str
  line_no : Nat
  context : Str
  docstring : DocVal
deriving DecidableEq

/-- The mutable state of a `CodebaseVisualizer`, with the `networkx`
graph split into its node and edge lists. -/
structure BuildState where
  graph_nodes : List (Str × Attrs)
  graph_edges : List ((Str × Str) × Attrs)
  file_contents : List (Str × Str)
  import_relations : List (Str × List (Str × Nat))
  module_symbols : List (Str × List (Str × SymInfo))
  symbol_references : List (Str × List (Str × Nat × Str))
  file_index : List (Str × Nat)
  current_index : Nat
  directories : List Str
  symbol_index : List (Str × List Occurrence)
deriving DecidableEq

def initState : BuildState := ⟨[], [], [], [], [], [], [], 0, [], []⟩

def addNode (nm : Str) (attrs : Attrs) (st : BuildState) : BuildState :=
  { st with graph_nodes := addNodeList nm attrs st.graph_nodes }

def addEdge (u v : Str) (attrs : Attrs) (st : BuildState) : BuildState :=
  { st with graph_nodes := ensureNode v (ensureNode u st.graph_nodes),
            graph_edges := addEdgeList u v attrs st.graph_edges }

def hasNode (st : BuildState) (nm : Str) : Bool :=
  (dictGet? nm st.graph_nodes).isSome

def hasEdge (st : BuildState) (u v : Str) : Bool :=
  (dictGet? (u, v) st.graph_edges).isSome

/-- Attribute keys. -/
def kType : Str := str "type"

def kEdgeType : Str := str "edge_type"

def kFileIndex : Str := str "file_index"

def kLanguage : Str := str "language"

def kDirectory : Str := str "directory"

def kCodeSnippet : Str := str "code_snippet"

def kStartLine : Str := str "start_line"

def kEndLine : Str := str "end_line"

def kSymbolType : Str := str "symbol_type"

def kLineNumber : Str := str "line_number"

def kContext : Str := str "context"

def kDocstring : Str := str "docstring"

/-- Node and edge type tags. -/
def vDirectory : Str := str "directory"

def vFile : Str := str "file"

def vSnippet : Str := str "snippet"

def vSymbol : Str := str "symbol"

def vContainsDirectory : Str := str "contains_directory"

def vContainsFile : Str := str "contains_file"

def vContainsSnippet : Str := str "contains_snippet"

def vDefines : Str := str "defines"

def vImport : Str := str "import"

def vReferences : Str := str "references"

/-! ## The input: the `os.walk` enumeration

A walked file: its name and either its content or `none` when the
`open`/`read` in `parse_files` raises (the `except` branch). -/

structure FileEntry where
  name : Str
  data : Option Str
deriving DecidableEq

/-- The input to a run is the enumeration `os.walk(root_dir)` produces:
for each visited directory, its path relative to the root (`"."` for
the root itself, always first and always present) and its file list, in
the top-down order the OS yields.  `os.walk` is an OS facility; its
enumeration, order included, is the run's input. -/
abbrev WalkEntries := List (Str × List FileEntry)

/-! ## `parse_files` -/

/-- The directory bookkeeping at the head of the walk loop. -/
def processDirEntry (st : BuildState) (relDir : Str) : BuildState :=
  if relDir = str "." then st
  else
    let st := { st with directories :=
      if relDir ∈ st.directories then st.directories
      else st.directories ++ [relDir] }
    let st := addNode relDir [(kType, .aStr vDirectory)] st
    let parent := dirname relDir
    if parent ≠ [] ∧ parent ≠ str "." then
      addEdge parent relDir [(kEdgeType, .aStr vContainsDirectory)] st
    else st

/-- `_analyze_file`: dispatch on the detected language, recording the
analyzer's `(imports, symbols)` for the file.  A Python parse failure
(`pyParse = none`) leaves both dicts without an entry for the file, as
the `except` branch does. -/
def analyze_file (pyParse : Str → Option PyModule) (st : BuildState)
    (relPath content lang : Str) : BuildState :=
  if lang = str "python" then
    match pyParse content with
    | some m =>
        let r := analyze_python_ast content m
        { st with
          import_relations := dictInsert relPath r.imports st.import_relations,
          module_symbols := dictInsert relPath r.symbols st.module_symbols }
    | none => st
  else if lang = str "cpp" then
    let r := analyze_cpp_file content
    { st with
      import_relations := dictInsert relPath r.imports st.import_relations,
      module_symbols := dictInsert relPath r.symbols st.module_symbols }
  else if lang = str "java" then
    let r := analyze_java_file content
    { st with
      import_relations := dictInsert relPath r.imports st.import_relations,
      module_symbols := dictInsert relPath r.symbols st.module_symbols }
  else if lang = str "go" then
    let r := analyze_go_file content
    { st with
      import_relations := dictInsert relPath r.imports st.import_relations,
      module_symbols := dictInsert relPath r.symbols st.module_symbols }
  else st

/-- One file of the walk loop.  The `file_index` entry, File node and
containment edge are created before the file is opened; a read failure
(`f.data = none`, the `except` branch) leaves them in place and only
skips the content-dependent steps. -/
def processFile (pyParse : Str → Option PyModule) (relDir : Str)
    (st : BuildState) (f : FileEntry) : BuildState :=
  let relPath := childPath relDir f.name
  let lang := detect_language relPath
  if lang ∈ supported_languages then
    let idx := st.current_index + 1
    let st := { st with current_index := idx,
                        file_index := dictInsert relPath idx st.file_index }
    let st := addNode relPath
      [(kType, .aStr vFile), (kFileIndex, .aNat idx), (kLanguage, .aStr lang)] st
    let st :=
      if relDir ≠ str "." then
        addEdge relDir relPath [(kEdgeType, .aStr vContainsFile)] st
      else st
    match f.data with
    | some content =>
        let st := { st with
          file_contents := dictInsert relPath content st.file_contents }
        analyze_file pyParse st relPath content lang
    | none => st
  else st

/-- The first pass of `parse_files`: walk, index, read, analyze. -/
def parse_first_pass (pyParse : Str → Option PyModule) (w : WalkEntries) :
    BuildState :=
  w.foldl
    (fun st e => e.2.foldl (processFile pyParse e.1) (processDirEntry st e.1))
    initState

/-- Append reference records to `symbol_references`. -/
def applyRefRecords (st : BuildState)
    (records : List (Str × Str × Nat × Str)) : BuildState :=
  { st with symbol_references :=
      records.foldl (fun d r => dictPush r.1 r.2 d) st.symbol_references }

/-- `_find_references_in_file`. -/
def find_references_in_file (pyParse : Str → Option PyModule)
    (st : BuildState) (path content lang : Str) : BuildState :=
  if lang = str "python" then
    match pyParse content with
    | some m => applyRefRecords st (python_reference_records content path m)
    | none => st
  else if lang = str "cpp" then
    applyRefRecords st (cpp_reference_records st.module_symbols path content)
  else if lang = str "java" then
    applyRefRecords st (java_reference_records st.module_symbols path content)
  else if lang = str "go" then
    applyRefRecords st (go_reference_records st.module_symbols path content)
  else st

/-- The second pass of `parse_files` (the finders only append to
`symbol_references`, so iterating the `file_contents` snapshot is the
dict iteration of the source). -/
def find_references_pass (pyParse : Str → Option PyModule)
    (st : BuildState) : BuildState :=
  st.file_contents.foldl
    (fun s pc => find_references_in_file pyParse s pc.1 pc.2
                   (detect_language pc.1)) st

/-! ## `_build_symbol_index` -/

def mkDefOcc (f : Str) (info : SymInfo) : Occurrence :=
  ⟨f, str "definition", some info.type, info.line_no, info.context,
   match info.docstring with
   | .absent => .strV []
   | d => d⟩

def mkRefOcc (f : Str) (l : Nat) (c : Str) : Occurrence :=
  ⟨f, str "reference", none, l, c, .absent⟩

/-- One symbol of the definition loop of `_build_symbol_index`. -/
def indexDefStep (f : Str) (idx : List (Str × List Occurrence))
    (ni : Str × SymInfo) : List (Str × List Occurrence) :=
  dictPush ni.1 (mkDefOcc f ni.2) idx

/-- The definition loop of `_build_symbol_index`. -/
def indexAddDefs (ms : List (Str × List (Str × SymInfo))) :
    List (Str × List Occurrence) :=
  ms.foldl (fun idx fs => fs.2.foldl (indexDefStep fs.1) idx) []

/-- The duplicate-avoidance test of the reference loop: does the entry
already record a `definition` occurrence at this `(file, line)`? -/
def chkDef (occs : List Occurrence) (f : Str) (l : Nat) : Bool :=
  occs.any (fun o =>
    decide (o.file = f ∧ o.line_no = l ∧ o.type = str "definition"))

/-- One reference record of the reference loop of
`_build_symbol_index`. -/
def indexRefStep (n : Str) (idx : List (Str × List Occurrence))
    (r : Str × Nat × Str) : List (Str × List Occurrence) :=
  if chkDef (dictGetD n idx []) r.1 r.2.1 then idx
  else dictPush n (mkRefOcc r.1 r.2.1 r.2.2) idx

/-- The reference loop of `_build_symbol_index`, with its
definition-collision check against the current index entry. -/
def indexAddRefs (refs : List (Str × List (Str × Nat × Str)))
    (idx0 : List (Str × List Occurrence)) : List (Str × List Occurrence) :=
  refs.foldl (fun idx nr =>
    let idx := if (dictGet? nr.1 idx).isNone then idx ++ [(nr.1, [])] else idx
    nr.2.foldl (indexRefStep nr.1) idx) idx0

def build_symbol_index (st : BuildState) : BuildState :=
  { st with symbol_index :=
      indexAddRefs st.symbol_references (indexAddDefs st.module_symbols) }

/-- `parse_files`: both passes and the index build. -/
def parse_files (pyParse : Str → Option PyModule) (w : WalkEntries) :
    BuildState :=
  build_symbol_index (find_references_pass pyParse (parse_first_pass pyParse w))

/-! ## `build_graph` -/

/-- The directory consolidation loop of `build_graph` (iterated over the
snapshot of `self.directories`; the loop body can only add ancestors
that the walk already visited, so the set is in fact never mutated
during the iteration). -/
def bgDirStep (st : BuildState) (directory : Str) : BuildState :=
  let st :=
    if hasNode st directory then st
    else addNode directory [(kType, .aStr vDirectory)] st
  let parts := splitBySep directory
  (List.range' 1 (parts.length - 1)).foldl (fun st i =>
    let parent_path := joinSep (parts.take i)
    let st :=
      if parent_path ≠ [] ∧ ¬ hasNode st parent_path then
        let st := addNode parent_path [(kType, .aStr vDirectory)] st
        { st with directories :=
            if parent_path ∈ st.directories then st.directories
            else st.directories ++ [parent_path] }
      else st
    if parent_path ≠ [] then
      addEdge parent_path (joinSep (parts.take (i + 1)))
        [(kEdgeType, .aStr vContainsDirectory)] st
    else st) st

def bgDirs (st : BuildState) : BuildState := st.directories.foldl bgDirStep st

/-- `details.get('docstring', '')` as a graph attribute value. -/
def docAttr : DocVal → AttrVal
  | .absent => .aStr []
  | .noneV => .aNone
  | .strV s => .aStr s

/-- The per-file loop of `build_graph`: node refresh, directory hookup,
snippet nodes (for files whose content was read) and symbol nodes. -/
def bgFileStep (st : BuildState) (fi : Str × Nat) : BuildState :=
  let file_path := fi.1
  let language := detect_language file_path
  let st :=
    match dictGet? file_path st.graph_nodes with
    | some _ =>
        { st with graph_nodes := (addNodeList file_path
            [(kFileIndex, .aNat fi.2), (kDirectory, .aStr (dirname file_path)),
             (kLanguage, .aStr language)] st.graph_nodes) }
    | none =>
        addNode file_path
          [(kType, .aStr vFile), (kFileIndex, .aNat fi.2),
           (kDirectory, .aStr (dirname file_path)),
           (kLanguage, .aStr language)] st
  let directory := dirname file_path
  let st :=
    if directory ≠ [] then
      let st :=
        if hasNode st directory then st
        else
          let st := addNode directory [(kType, .aStr vDirectory)] st
          { st with directories :=
              if directory ∈ st.directories then st.directories
              else st.directories ++ [directory] }
      if hasEdge st directory file_path then st
      else addEdge directory file_path [(kEdgeType, .aStr vContainsFile)] st
    else st
  let st :=
    match dictGet? file_path st.file_contents with
    | some content =>
        ((chunkList (splitlines content) 20).enum).foldl (fun st ic =>
          let snippet_node := file_path ++ str "::snippet::" ++ natStr ic.1
          let st := addNode snippet_node
            [(kType, .aStr vSnippet), (kCodeSnippet, .aStr ic.2.code_snippet),
             (kStartLine, .aNat ic.2.start_line),
             (kEndLine, .aNat ic.2.end_line), (kLanguage, .aStr language)] st
          addEdge file_path snippet_node
            [(kEdgeType, .aStr vContainsSnippet),
             (kStartLine, .aNat ic.2.start_line),
             (kEndLine, .aNat ic.2.end_line)] st) st
    | none => st
  (dictGetD file_path st.module_symbols []).foldl (fun st sd =>
    let symbol_node := file_path ++ str "::" ++ sd.1
    let st := addNode symbol_node
      [(kType, .aStr vSymbol), (kSymbolType, .aStr sd.2.type),
       (kLineNumber, .aNat sd.2.line_no), (kContext, .aStr sd.2.context),
       (kDocstring, docAttr sd.2.docstring)] st
    addEdge file_path symbol_node
      [(kEdgeType, .aStr vDefines), (kLineNumber, .aNat sd.2.line_no)] st) st

def bgFiles (st : BuildState) : BuildState := st.file_index.foldl bgFileStep st

/-- The import-resolution loop of `build_graph`. -/
def bgImports (st : BuildState) : BuildState :=
  st.import_relations.foldl (fun st fim =>
    fim.2.foldl (fun st il =>
      st.module_symbols.foldl (fun st ts =>
        if (dictGet? il.1 ts.2).isSome then
          addEdge fim.1 (ts.1 ++ str "::" ++ il.1)
            [(kEdgeType, .aStr vImport), (kLineNumber, .aNat il.2)] st
        else if detect_language fim.1 = str "python" ∧
                il.1.isSuffixOf (replacePyExt ts.1) then
          addEdge fim.1 ts.1
            [(kEdgeType, .aStr vImport), (kLineNumber, .aNat il.2)] st
        else if detect_language fim.1 = str "java" ∧
                (splitext_root (basename ts.1)).isPrefixOf il.1 then
          addEdge fim.1 ts.1
            [(kEdgeType, .aStr vImport), (kLineNumber, .aNat il.2)] st
        else st) st) st) st

/-- The reference-edge loop of `build_graph`: each recorded reference is
matched by name against every file's symbol dict. -/
def bgRefs (st : BuildState) : BuildState :=
  st.symbol_references.foldl (fun st sr =>
    sr.2.foldl (fun st r =>
      st.module_symbols.foldl (fun st ts =>
        if (dictGet? sr.1 ts.2).isSome then
          addEdge r.1 (ts.1 ++ str "::" ++ sr.1)
            [(kEdgeType, .aStr vReferences), (kLineNumber, .aNat r.2.1),
             (kContext, .aStr r.2.2)] st
        else st) st) st) st

def build_graph (st : BuildState) : BuildState :=
  bgRefs (bgImports (bgFiles (bgDirs st)))

/-- A full run: `parse_files()` followed by `build_graph()`. -/
def run_pipeline (pyParse : Str → Option PyModule) (w : WalkEntries) :
    BuildState :=
  build_graph (parse_files pyParse w)

/-- The formal rendering of C1: the snippets' 1-based inclusive line
ranges partition `[1, N]` (`N` the line count) into contiguous,
disjoint, gap-free ranges of exactly `lines_per_chunk` lines except
possibly the last, and empty content yields zero snippets. -/
def ChunkPartition (code : Str) (k : Nat) (cs : List Chunk) : Prop :=
  (code = [] → cs = []) ∧
  (∀ j, ∀ hj : j < cs.length,
     (cs.get ⟨j, hj⟩).start_line = j * k + 1 ∧
     (cs.get ⟨j, hj⟩).end_line = min ((j + 1) * k) (splitlines code).length) ∧
  (∀ c ∈ cs, 1 ≤ c.start_line ∧ c.start_line ≤ c.end_line ∧
     c.end_line ≤ (splitlines code).length) ∧
  (∀ l, 1 ≤ l → l ≤ (splitlines code).length →
     ∃! j, ∃ hj : j < cs.length,
       (cs.get ⟨j, hj⟩).start_line ≤ l ∧ l ≤ (cs.get ⟨j, hj⟩).end_line) ∧
  (∀ j, ∀ hj : j < cs.length, j + 1 < cs.length →
     (cs.get ⟨j, hj⟩).end_line + 1 - (cs.get ⟨j, hj⟩).start_line = k) ∧
  (∀ j, ∀ hj : j < cs.length,
     (cs.get ⟨j, hj⟩).end_line + 1 - (cs.get ⟨j, hj⟩).start_line ≤ k)

/-! ## C7: the keyword stoplist -/

/-- No stoplisted control-flow keyword is mapped to a callable symbol
type. -/
def NoStopCallable (syms : List (Str × SymInfo)) : Prop :=
  ∀ n ∈ keyword_stoplist, ∀ info, dictGet? n syms = some info →
    info.type ≠ str "function" ∧ info.type ≠ str "method"

/-! ## Concrete scenario inputs -/

/-- The spec's two-file scenario: a directory holding `a.py` with
`def foo(): pass` and `b.py` with `foo()`. -/
def scenario_walk : WalkEntries :=
  [(str ".", [⟨str "a.py", some (str "def foo(): pass")⟩,
              ⟨str "b.py", some (str "foo()")⟩])]

/-- `ast.parse` on exactly the two contents of the scenario:
`"def foo(): pass"` parses to `Module([FunctionDef('foo', body=[Pass])])`
(all on line 1) and `"foo()"` to `Module([Expr(Call(Name('foo', Load')))])`. -/
def scenario_pyParse : Str → Option PyModule := fun c =>
  if c = str "def foo(): pass" then
    some ⟨[.functionDef (str "foo") [.passStmt 1] 1 1]⟩
  else if c = str "foo()" then
    some ⟨[.exprStmt (.callE (.nameE (str "foo") .load 1) [] 1) 1]⟩
  else none

/-- One Python file `a.py` whose content `x = x` loads `x` on the same
line that (last) assigns it. -/
def selfref_walk : WalkEntries :=
  [(str ".", [⟨str "a.py", some (str "x = x")⟩])]

/-- `ast.parse "x = x"`:
`Module([Assign([Name('x', Store)], Name('x', Load))])`, all on line 1. -/
def selfref_pyParse : Str → Option PyModule := fun c =>
  if c = str "x = x" then
    some ⟨[.assign [.nameE (str "x") .store 1] (.nameE (str "x") .load 1) 1 1]⟩
  else none

/-- A subdirectory with one readable C++ file and one Python file whose
read raises (`data = none`). -/
def failedread_walk : WalkEntries :=
  [(str ".", []),
   (str "sub", [⟨str "y.cpp", some (str "void foo();")⟩,
                ⟨str "x.py", none⟩])]

/-- `a.cpp` defines `foo` (line 1); `b.cpp` mentions `foo` on two lines
without matching any definition pattern. -/
def tworefs_walk : WalkEntries :=
  [(str ".", [⟨str "a.cpp", some (str "void foo();")⟩,
              ⟨str "b.cpp", some (str "foo(x)\nfoo(y)")⟩])]

/-! ## C2 amended: the pattern-based finders exclude the definition line -/

/-- A reference record `(name, file, line, context)` produced for `path`
never sits on the line its own file's symbol dict records as `name`'s
definition line. -/
def SkipsOwnDefinitionLine (ms : List (Str × List (Str × SymInfo)))
    (path : Str) (r : Str × Str × Nat × Str) : Prop :=
  r.2.1 = path ∧
  ∀ syms info, dictGet? path ms = some syms →
    dictGet? r.1 syms = some info → info.line_no ≠ r.2.2.1

/-- Concrete symbol table for the C2-amended witness: `a.cpp` defines
`foo` at line 1. -/
def skipdef_ms : List (Str × List (Str × SymInfo)) :=
  [(str "a.cpp", [(str "foo", ⟨str "function", 1, str "void foo();", .absent⟩)])]

/-! ## C6 amended: structure of the symbol index -/

/-- The `definition` occurrences the defs loop appends for name `n`
from one file's symbol dict, in iteration order. -/
def perFileDefOccs (f : Str) (syms : List (Str × SymInfo)) (n : Str) :
    List Occurrence :=
  syms.filterMap (fun ni =>
    if ni.1 = n then some (mkDefOcc f ni.2) else none)

/-- All `definition` occurrences for name `n`, in iteration order. -/
def defOccsFor (ms : List (Str × List (Str × SymInfo))) (n : Str) :
    List Occurrence :=
  ms.flatMap (fun fs => perFileDefOccs fs.1 fs.2 n)

/-- The reference records for name `n`, in iteration order. -/
def refRecsFor (refs : List (Str × List (Str × Nat × Str))) (n : Str) :
    List (Str × Nat × Str) :=
  refs.flatMap (fun nr => if nr.1 = n then nr.2 else [])

/-- The `reference` occurrences kept by the reference loop for an entry
currently holding the `definition` occurrences `cur`. -/
def keptRefOccs (cur : List Occurrence) (rs : List (Str × Nat × Str)) :
    List Occurrence :=
  (rs.filter (fun r => ¬ chkDef cur r.1 r.2.1)).map
    (fun r => mkRefOcc r.1 r.2.1 r.2.2)

/-- The formal rendering of the amended C6: every occurrence of an
index entry is tagged `definition` or `reference`; the definition
occurrences are exactly those of `module_symbols` (one per `(file,
name)` entry under the dict invariants); the reference occurrences are
exactly the recorded reference records minus those sitting on a
`(file, line)` recorded as a definition of the same name; and no
`(file, line)` appears under the name both as a definition and as a
reference. -/
def SymbolIndexStructure (st : BuildState) (n : Str)
    (occs : List Occurrence) : Prop :=
  (∀ o ∈ occs, o.type = str "definition" ∨ o.type = str "reference") ∧
  occs.filter (fun o => decide (o.type = str "definition")) =
    defOccsFor st.module_symbols n ∧
  occs.filter (fun o => decide (o.type = str "reference")) =
    keptRefOccs (defOccsFor st.module_symbols n)
      (refRecsFor st.symbol_references n) ∧
  ((st.module_symbols.map Prod.fst).Nodup →
    (∀ fs ∈ st.module_symbols, (fs.2.map Prod.fst).Nodup) →
    (∀ f syms, dictGet? f st.module_symbols = some syms →
      occs.countP (fun o =>
        decide (o.type = str "definition" ∧ o.file = f)) =
        (if (dictGet? n syms).isSome then 1 else 0)) ∧
    (∀ f, dictGet? f st.module_symbols = none →
      occs.countP (fun o =>
        decide (o.type = str "definition" ∧ o.file = f)) = 0)) ∧
  (∀ f l, ¬ ((∃ o ∈ occs, o.type = str "definition" ∧ o.file = f ∧
      o.line_no = l) ∧
    (∃ o ∈ occs, o.type = str "reference" ∧ o.file = f ∧ o.line_no = l)))

/-- A small builder state for the C6-amended witness: one definition of
`f` in `a.py` and one recorded reference from `b.py`. -/
def idxw_state : BuildState :=
  { initState with
    module_symbols :=
      [(str "a.py", [(str "f", ⟨str "function", 1, str "def f", .noneV⟩)])],
    symbol_references := [(str "f", [(str "b.py", 2, str "f()")])] }

/-! ## Which pipeline phases touch which state fields -/

/-- Two states agreeing on everything but the graph and the directory
set (the only fields `build_graph` writes). -/
def SameCore (a b : BuildState) : Prop :=
  a.file_contents = b.file_contents ∧
  a.import_relations = b.import_relations ∧
  a.module_symbols = b.module_symbols ∧
  a.symbol_references = b.symbol_references ∧
  a.file_index = b.file_index ∧
  a.current_index = b.current_index ∧
  a.symbol_index = b.symbol_index

/-! ## C5: `file_index` values in first-encounter order -/

/-- The in-scope (supported-language) relative paths contributed by one
walk entry, in the order the walk yields them. -/
def inScopeNames (relDir : Str) (fs : List FileEntry) : List Str :=
  (fs.map (fun f => childPath relDir f.name)).filter
    (fun q => decide (detect_language q ∈ supported_languages))

/-- All in-scope relative paths of a walk, in first-encounter order. -/
def inScopePaths (w : WalkEntries) : List Str :=
  (w.map (fun e => inScopeNames e.1 e.2)).flatten

/-- The `file_index` invariant: the keys are the in-scope paths seen so
far and the values count up from 1. -/
def FIdx (K : List Str) (st : BuildState) : Prop :=
  st.file_index = K.zip (List.range' 1 K.length) ∧
  st.current_index = K.length

/-! ## Lemmas and theorems -/

lemma stmtList_map_sum (l : List PyStmt) :
    (l.map stmtSize).sum = stmtListSize l := by
  induction l with
  | nil => rfl
  | cons s ss ih => simp [stmtListSize, ih]

lemma exprList_map_sum (l : List PyExpr) :
    (l.map exprSize).sum = exprListSize l := by
  induction l with
  | nil => rfl
  | cons e es ih => simp [exprListSize, ih]

lemma children_size_lt (n : PyNode) : queueSize (nodeChildren n) < nodeSize n := by
  cases n with
  | stmt s =>
    cases s <;>
      simp [nodeChildren, stmtChildren, queueSize, nodeSize, stmtSize,
            Function.comp_def, stmtList_map_sum, exprList_map_sum,
            exprListSize]
  | expr e =>
    cases e <;>
      simp [nodeChildren, exprChildren, queueSize, nodeSize, exprSize,
            Function.comp_def, exprList_map_sum]

/-! ## Lemmas about the chunker -/

lemma chunkList_length (lines : List Str) (k : Nat) :
    (chunkList lines k).length = (lines.length + k - 1) / k := by
  simp [chunkList, pyRange0]

lemma chunkList_get (lines : List Str) (k j : Nat)
    (hj : j < (chunkList lines k).length) :
    (chunkList lines k).get ⟨j, hj⟩ = chunkAt lines k (j * k) := by
  simp [chunkList, pyRange0, List.get_eq_getElem] at hj ⊢

lemma mul_lt_of_lt_ceil {k j N : Nat} (hk : 0 < k)
    (hj : j < (N + k - 1) / k) : j * k < N := by
  have h2 : (j + 1) * k ≤ ((N + k - 1) / k) * k :=
    Nat.mul_le_mul_right k hj
  have h3 : ((N + k - 1) / k) * k ≤ N + k - 1 := Nat.div_mul_le_self _ _
  have h4 : (j + 1) * k = j * k + k := Nat.succ_mul j k
  omega

lemma chunkAt_start (lines : List Str) (k i : Nat) :
    (chunkAt lines k i).start_line = i + 1 := rfl

lemma chunkAt_end (lines : List Str) (k i : Nat) :
    (chunkAt lines k i).end_line = i + min k (lines.length - i) := by
  simp [chunkAt]

lemma chunkAt_end_min (lines : List Str) (k j : Nat)
    (h : j * k < lines.length) :
    (chunkAt lines k (j * k)).end_line = min ((j + 1) * k) lines.length := by
  rw [chunkAt_end]
  have h4 : (j + 1) * k = j * k + k := Nat.succ_mul j k
  omega

lemma lt_succ_div_mul (a k : Nat) (hk : 0 < k) : a < (a / k + 1) * k := by
  have h1 := Nat.div_add_mod a k
  have h2 := Nat.mod_lt a hk
  have h3 : (a / k + 1) * k = k * (a / k) + k := by ring
  omega

/-- C1 (claim): for positive `lines_per_chunk`, `_chunk_code` covers
`[1, N]` with contiguous, disjoint, gap-free inclusive ranges, each of
exactly `lines_per_chunk` lines except possibly the final one; empty
content yields zero snippets. -/
theorem chunk_code_partitions (code : Str) (k : Nat) (hk : 0 < k)
    (cs : List Chunk) (hcs : chunk_code code k = some cs) :
    ChunkPartition code k cs := by
  rw [chunk_code, if_neg (Nat.pos_iff_ne_zero.mp hk), Option.some_inj] at hcs
  subst hcs
  unfold ChunkPartition
  set lines := splitlines code with hlines
  set N := lines.length with hN
  have hlen : (chunkList lines k).length = (N + k - 1) / k :=
    chunkList_length lines k
  have hget : ∀ j, ∀ hj : j < (chunkList lines k).length,
      (chunkList lines k).get ⟨j, hj⟩ = chunkAt lines k (j * k) :=
    chunkList_get lines k
  have hjk : ∀ j, j < (chunkList lines k).length → j * k < N := by
    intro j hj
    exact mul_lt_of_lt_ceil hk (hlen ▸ hj)
  have hstart : ∀ j, ∀ hj : j < (chunkList lines k).length,
      ((chunkList lines k).get ⟨j, hj⟩).start_line = j * k + 1 := by
    intro j hj; rw [hget j hj, chunkAt_start]
  have hend : ∀ j, ∀ hj : j < (chunkList lines k).length,
      ((chunkList lines k).get ⟨j, hj⟩).end_line = min ((j + 1) * k) N := by
    intro j hj; rw [hget j hj, chunkAt_end_min lines k j (hjk j hj)]
  refine ⟨?_, fun j hj => ⟨hstart j hj, hend j hj⟩, ?_, ?_, ?_, ?_⟩
  · intro hc
    have : N = 0 := by
      rw [hN, hlines, hc]; rfl
    have : (chunkList lines k).length = 0 := by
      rw [hlen, this]
      exact Nat.div_eq_of_lt (by omega)
    exact List.length_eq_zero.mp this
  · intro c hc
    obtain ⟨⟨j, hj⟩, rfl⟩ := List.mem_iff_get.mp hc
    rw [hstart j hj, hend j hj]
    have h1 := hjk j hj
    have h2 : (j + 1) * k = j * k + k := Nat.succ_mul j k
    omega
  · intro l hl1 hlN
    refine ⟨(l - 1) / k, ⟨?_, ?_, ?_⟩, ?_⟩
    · rw [hlen]
      have hN1 : 1 ≤ N := le_trans hl1 hlN
      have h1 : (l - 1) / k ≤ (N - 1) / k :=
        Nat.div_le_div_right (by omega)
      have heq : N + k - 1 = N - 1 + k := by omega
      rw [heq, Nat.add_div_right _ hk]
      omega
    · rw [hstart]
      have := Nat.div_mul_le_self (l - 1) k
      omega
    · rw [hend]
      have h1 := lt_succ_div_mul (l - 1) k hk
      omega
    · rintro j ⟨hj, hs, he⟩
      rw [hstart j hj] at hs
      rw [hend j hj] at he
      have h2 : (j + 1) * k = j * k + k := Nat.succ_mul j k
      have hlo : j * k ≤ l - 1 := by omega
      have hhi : l - 1 < (j + 1) * k := by omega
      exact (Nat.div_eq_of_lt_le hlo hhi).symm
  · intro j hj hj1
    rw [hstart j hj, hend j hj]
    have h1 : (j + 1) * k < N := by
      have := mul_lt_of_lt_ceil hk (hlen ▸ hj1)
      have h2 : (j + 1) * k = j * k + k := Nat.succ_mul j k
      omega
    have h2 : (j + 1) * k = j * k + k := Nat.succ_mul j k
    omega
  · intro j hj
    rw [hstart j hj, hend j hj]
    have h2 : (j + 1) * k = j * k + k := Nat.succ_mul j k
    omega

lemma joinWith_cons (sep : Char) (x : Str) (xs : List Str) (h : xs ≠ []) :
    joinWith sep (x :: xs) = x ++ sep :: joinWith sep xs := by
  cases xs with
  | nil => exact absurd rfl h
  | cons y ys => rfl

lemma joinWith_append (sep : Char) (l1 l2 : List Str)
    (h1 : l1 ≠ []) (h2 : l2 ≠ []) :
    joinWith sep (l1 ++ l2) = joinWith sep l1 ++ sep :: joinWith sep l2 := by
  induction l1 with
  | nil => exact absurd rfl h1
  | cons x xs ih =>
    cases xs with
    | nil =>
      simp only [List.singleton_append]
      rw [joinWith_cons sep x l2 h2]
      rfl
    | cons y ys =>
      have hne : y :: ys ≠ [] := List.cons_ne_nil y ys
      rw [List.cons_append,
          joinWith_cons sep x ((y :: ys) ++ l2) (by simp),
          joinWith_cons sep x (y :: ys) hne, ih hne]
      simp

lemma pyRange0_succ (N k : Nat) (hk : 0 < k) (hN : 1 ≤ N) :
    pyRange0 N k = 0 :: (pyRange0 (N - k) k).map (· + k) := by
  have hnc : (N + k - 1) / k = (N - k + k - 1) / k + 1 := by
    rcases le_or_lt k N with h | h
    · have e1 : N - k + k - 1 = N - 1 := by omega
      have e2 : N + k - 1 = N - 1 + k := by omega
      rw [e1, e2, Nat.add_div_right _ hk]
    · have e1 : N - k = 0 := by omega
      have e2 : (N + k - 1) / k = 1 := by
        apply Nat.div_eq_of_lt_le <;> omega
      have e3 : (k - 1) / k = 0 := Nat.div_eq_of_lt (by omega)
      rw [e1, e2]
      simpa using e3
  unfold pyRange0
  rw [hnc, List.range_succ_eq_map]
  simp only [List.map_cons, Nat.zero_mul, List.map_map]
  congr 1
  apply List.map_congr_left
  intro j _
  simp [Nat.succ_mul]

lemma joinNL_cons (x : Str) (xs : List Str) (h : xs ≠ []) :
    joinNL (x :: xs) = x ++ '\n' :: joinNL xs :=
  joinWith_cons '\n' x xs h

lemma joinNL_chunk_snippets (k : Nat) (hk : 0 < k) :
    ∀ N, ∀ lines : List Str, lines.length = N →
      joinNL ((pyRange0 N k).map (fun i => joinNL ((lines.drop i).take k))) =
        joinNL lines := by
  intro N
  induction N using Nat.strong_induction_on with
  | _ N ih =>
    intro lines hlen
    rcases Nat.eq_zero_or_pos N with hN0 | hNpos
    · subst hN0
      have : lines = [] := List.length_eq_zero.mp hlen
      subst this
      simp [pyRange0, Nat.div_eq_of_lt (show k - 1 < k by omega), joinNL,
            joinWith]
    · rw [pyRange0_succ N k hk hNpos]
      simp only [List.map_cons, List.drop_zero, List.map_map]
      have hmap2 : (pyRange0 (N - k) k).map
            ((fun i => joinNL ((lines.drop i).take k)) ∘ (· + k)) =
          (pyRange0 (N - k) k).map
            (fun i => joinNL (((lines.drop k).drop i).take k)) := by
        apply List.map_congr_left
        intro i _
        simp [List.drop_drop, Nat.add_comm]
      rw [hmap2]
      have hdroplen : (lines.drop k).length = N - k := by
        simp [hlen]
      rcases le_or_lt N k with hNk | hkN
      · have hsingle : pyRange0 (N - k) k = [] := by
          have : N - k = 0 := by omega
          simp [pyRange0, this, Nat.div_eq_of_lt (show k - 1 < k by omega)]
        have htake : lines.take k = lines :=
          List.take_of_length_le (by omega)
        rw [hsingle]
        simp [joinNL, joinWith, htake]
      · have htail_ne : (pyRange0 (N - k) k).map
              (fun i => joinNL (((lines.drop k).drop i).take k)) ≠ [] := by
          simp only [ne_eq, List.map_eq_nil_iff]
          unfold pyRange0
          simp only [List.map_eq_nil_iff, List.range_eq_nil]
          have h1 : k ≤ N - k + k - 1 := by omega
          have h2 := (Nat.one_le_div_iff hk).mpr h1
          omega
        rw [joinNL_cons _ _ htail_ne, ih (N - k) (by omega) (lines.drop k)
              hdroplen]
        have h1 : lines.take k ≠ [] := by
          intro hemp
          have : (lines.take k).length = 0 := by rw [hemp]; rfl
          simp [hlen] at this
          omega
        have h2 : lines.drop k ≠ [] := by
          intro hemp
          rw [hemp] at hdroplen
          simp at hdroplen
          omega
        have hsplit : joinNL lines =
            joinNL (lines.take k) ++ '\n' :: joinNL (lines.drop k) := by
          conv_lhs => rw [← List.take_append_drop k lines]
          exact joinWith_append '\n' _ _ h1 h2
        rw [hsplit]

/-- C9 (claim): joining the `code_snippet` fields of `_chunk_code`'s
chunks with a newline separator reconstructs the newline-join of the
content's lines. -/
theorem chunk_code_reconstructs (code : Str) (k : Nat) (hk : 0 < k)
    (cs : List Chunk) (hcs : chunk_code code k = some cs) :
    joinNL (cs.map Chunk.code_snippet) = joinNL (splitlines code) := by
  rw [chunk_code, if_neg (Nat.pos_iff_ne_zero.mp hk), Option.some_inj] at hcs
  subst hcs
  have hsnip : (chunkList (splitlines code) k).map Chunk.code_snippet =
      (pyRange0 (splitlines code).length k).map
        (fun i => joinNL (((splitlines code).drop i).take k)) := by
    simp [chunkList, chunkAt, List.map_map]
  rw [hsnip]
  exact joinNL_chunk_snippets k hk _ (splitlines code) rfl

/-- Witness for C1 at content `"a\nb\nc"` and `lines_per_chunk = 2`. -/
theorem chunk_code_partitions_witness :
    0 < 2 ∧
    chunk_code (str "a\nb\nc") 2 =
      some (chunkList (splitlines (str "a\nb\nc")) 2) ∧
    ChunkPartition (str "a\nb\nc") 2
      (chunkList (splitlines (str "a\nb\nc")) 2) :=
  ⟨by decide, by decide, chunk_code_partitions _ 2 (by decide) _ (by decide)⟩

/-- Witness for C9 at content `"a\nb\nc"` and `lines_per_chunk = 2`. -/
theorem chunk_code_reconstructs_witness :
    0 < 2 ∧
    chunk_code (str "a\nb\nc") 2 =
      some (chunkList (splitlines (str "a\nb\nc")) 2) ∧
    joinNL ((chunkList (splitlines (str "a\nb\nc")) 2).map Chunk.code_snippet) =
      joinNL (splitlines (str "a\nb\nc")) :=
  ⟨by decide, by decide, chunk_code_reconstructs _ 2 (by decide) _ (by decide)⟩

/-- C10 (claim): `_detect_language` lowercases the extension before the
table lookup, so classification is case-insensitive on the extension
(`'.PY'` behaves as `'.py'`), and any path whose lowercased extension is
absent from the table is classified `"unknown"`. -/
theorem detect_language_lowercases_extension :
    (∀ p q : Str,
       (splitext_ext p).map Char.toLower = (splitext_ext q).map Char.toLower →
       detect_language p = detect_language q) ∧
    detect_language (str "a.PY") = str "python" ∧
    detect_language (str "a.py") = str "python" ∧
    (∀ p : Str,
       (splitext_ext p).map Char.toLower ∉
         language_extensions.flatMap Prod.snd →
       detect_language p = str "unknown") := by
  refine ⟨?_, by decide, by decide, ?_⟩
  · intro p q h
    unfold detect_language
    rw [h]
  · intro p hp
    unfold detect_language
    have : language_extensions.find?
        (fun le => decide ((splitext_ext p).map Char.toLower ∈ le.2)) = none := by
      rw [List.find?_eq_none]
      intro le hle
      simp only [decide_eq_true_eq]
      intro hmem
      exact hp (List.mem_flatMap.mpr ⟨le, hle, hmem⟩)
    simp only []
    rw [this]

/-- Witness for C10: same classification for `"b.Py"` and `"b.pY"`, and
`"unknown"` for an extension outside the table. -/
theorem detect_language_lowercases_extension_witness :
    detect_language (str "b.Py") = detect_language (str "b.pY") ∧
    detect_language (str "c.txt") = str "unknown" :=
  ⟨detect_language_lowercases_extension.1 _ _ (by decide),
   detect_language_lowercases_extension.2.2.2 _ (by decide)⟩

/-! ## Dict lemmas -/

lemma dictGet?_dictInsert [DecidableEq α] (k n : α) (v : β)
    (d : List (α × β)) :
    dictGet? n (dictInsert k v d) =
      if k = n then some v else dictGet? n d := by
  induction d with
  | nil => simp [dictInsert, dictGet?]
  | cons kv rest ih =>
    obtain ⟨k', v'⟩ := kv
    by_cases h1 : k' = k
    · subst h1
      by_cases h2 : k' = n <;> simp [dictInsert, dictGet?, h2]
    · by_cases h2 : k' = n <;> by_cases h3 : k = n <;>
        simp_all [dictInsert, dictGet?]

lemma foldl_preserves {σ α : Type _} (P : σ → Prop) {f : σ → α → σ} :
    ∀ {l : List α} {s : σ}, (∀ s x, x ∈ l → P s → P (f s x)) → P s →
      P (l.foldl f s) := by
  intro l
  induction l with
  | nil => exact fun _ h => h
  | cons x xs ih =>
    intro s hstep hs
    exact ih (fun s y hy => hstep s y (List.mem_cons_of_mem x hy))
      (hstep s x (List.mem_cons_self x xs) hs)

lemma noStop_dictInsert (syms : List (Str × SymInfo)) (name : Str)
    (info : SymInfo) (h : NoStopCallable syms)
    (hc : (info.type ≠ str "function" ∧ info.type ≠ str "method") ∨
          name ∉ keyword_stoplist) :
    NoStopCallable (dictInsert name info syms) := by
  intro n hn i hi
  rw [dictGet?_dictInsert] at hi
  by_cases he : name = n
  · rw [if_pos he, Option.some_inj] at hi
    subst hi
    rcases hc with hc | hc
    · exact hc
    · exact absurd (he ▸ hn) hc
  · rw [if_neg he] at hi
    exact h n hn i hi

lemma noStop_dictInsert_nonCallable (syms : List (Str × SymInfo))
    (name t : Str) (lno : Nat) (ctx : Str) (d : DocVal)
    (h : NoStopCallable syms) (ht1 : t ≠ str "function")
    (ht2 : t ≠ str "method") :
    NoStopCallable (dictInsert name ⟨t, lno, ctx, d⟩ syms) :=
  noStop_dictInsert _ _ _ h (Or.inl ⟨ht1, ht2⟩)

lemma noStop_guard_ite (c1 c2 : Prop) [Decidable c1] [Decidable c2]
    (m : Str) (info : SymInfo) (base : AnalyzeResult)
    (h : NoStopCallable base.symbols) :
    NoStopCallable ((if c1 ∧ c2 ∧ m ∉ keyword_stoplist
        then { base with symbols := (dictInsert m info base.symbols) }
        else base).symbols) := by
  split
  · next hc => exact noStop_dictInsert _ _ _ h (Or.inr hc.2.2)
  · exact h

lemma noStop_guard_ite2 (m : Str) (info : SymInfo) (base : AnalyzeResult)
    (h : NoStopCallable base.symbols) :
    NoStopCallable ((if m ∉ keyword_stoplist
        then { base with symbols := (dictInsert m info base.symbols) }
        else base).symbols) := by
  split
  · next hc => exact noStop_dictInsert _ _ _ h (Or.inr hc)
  · exact h

lemma analyze_cpp_line_noStop (content : Str) (st : AnalyzeResult)
    (ln : Nat × Str) (h : NoStopCallable st.symbols) :
    NoStopCallable (analyze_cpp_line content st ln).symbols := by
  unfold analyze_cpp_line
  rcases h1 : reGroup1 cpp_include_pattern ln.2 with _ | m1 <;>
    simp only [h1] <;>
  rcases h2 : reGroup1 cpp_class_pattern ln.2 with _ | m2 <;>
    simp only [h2] <;>
  rcases h3 : reGroup1 cpp_function_pattern ln.2 with _ | m3 <;>
    simp only [h3] <;>
  rcases h4 : reGroup1 cpp_namespace_pattern ln.2 with _ | m4 <;>
    simp only [h4] <;>
  (repeat'
    first
    | exact h
    | refine noStop_guard_ite _ _ _ _ _ ?_
    | refine noStop_dictInsert_nonCallable _ _ _ _ _ _ ?_ (by decide)
        (by decide))

lemma analyze_java_line_noStop (content : Str) (st : AnalyzeResult)
    (ln : Nat × Str) (h : NoStopCallable st.symbols) :
    NoStopCallable (analyze_java_line content st ln).symbols := by
  unfold analyze_java_line
  rcases h1 : reGroup1 java_package_pattern ln.2 with _ | m1 <;>
    simp only [h1] <;>
  rcases h2 : reGroup1 java_import_pattern ln.2 with _ | m2 <;>
    simp only [h2] <;>
  rcases h3 : reGroup1 java_class_pattern ln.2 with _ | m3 <;>
    simp only [h3] <;>
  rcases h4 : reGroup1 java_interface_pattern ln.2 with _ | m4 <;>
    simp only [h4] <;>
  rcases h5 : reGroup1 java_method_pattern ln.2 with _ | m5 <;>
    simp only [h5] <;>
  (repeat'
    first
    | exact h
    | refine noStop_guard_ite2 _ _ _ ?_
    | refine noStop_dictInsert_nonCallable _ _ _ _ _ _ ?_ (by decide)
        (by decide))

/-- C7 amended: the C++ and Java analyzers never map a stoplisted
control-flow keyword (`if`, `while`, `for`, `switch`, `return`) to a
callable symbol type (`function` or `method`): the stoplist guards
their function/method branches.  (The Go analyzer has no such guard —
see the counterexample.) -/
theorem cpp_java_stoplist_suppresses_callables (content : Str) :
    NoStopCallable (analyze_cpp_file content).symbols ∧
    NoStopCallable (analyze_java_file content).symbols := by
  constructor
  · unfold analyze_cpp_file
    refine foldl_preserves (fun s => NoStopCallable s.symbols)
      (fun s x _ hx => analyze_cpp_line_noStop content s x hx) ?_
    intro n hn info hi
    exact Option.noConfusion hi
  · unfold analyze_java_file
    refine foldl_preserves (fun s => NoStopCallable s.symbols)
      (fun s x _ hx => analyze_java_line_noStop content s x hx) ?_
    intro n hn info hi
    exact Option.noConfusion hi

/-- Witness for the amended C7 theorem: `class if` makes the C++
analyzer record the stoplisted name `if` — as a `class`, never as a
callable. -/
theorem cpp_java_stoplist_witness :
    str "if" ∈ keyword_stoplist ∧
    dictGet? (str "if") (analyze_cpp_file (str "class if")).symbols =
      some ⟨str "class", 1, str "class if", .absent⟩ ∧
    ((⟨str "class", 1, str "class if", .absent⟩ : SymInfo).type ≠
        str "function" ∧
     (⟨str "class", 1, str "class if", .absent⟩ : SymInfo).type ≠
        str "method") :=
  ⟨by decide, by decide,
   (cpp_java_stoplist_suppresses_callables (str "class if")).1 (str "if")
     (by decide) _ (by decide)⟩

/-- C7 counterexample: the Go analyzer applies no stoplist, so the
content `func if` yields a Symbol named `if` of the callable type
`function`, contradicting the claim for the Go pattern analyzer. -/
theorem go_analyzer_emits_stoplisted_function :
    str "if" ∈ keyword_stoplist ∧
    ∃ info, dictGet? (str "if") (analyze_go_file (str "func if")).symbols =
      some info ∧ info.type = str "function" :=
  ⟨by decide,
   ⟨⟨str "function", 1, str "func if", .absent⟩, by decide, rfl⟩⟩

/-! ## C3: the two-file scenario -/

/-- C3 (claim): on the two-file scenario, the graph holds exactly one
`defines` edge — from `a.py` to `a.py::foo` — and exactly one
`references` edge — from `b.py` to `a.py::foo` — and the symbol index
entry for `foo` holds exactly one `definition` and one `reference`
occurrence. -/
theorem two_file_scenario_graph :
    (run_pipeline scenario_pyParse scenario_walk).graph_edges.countP
      (fun e => decide (dictGet? kEdgeType e.2 = some (.aStr vDefines))) = 1 ∧
    (run_pipeline scenario_pyParse scenario_walk).graph_edges.countP
      (fun e => decide (e.1 = (str "a.py", str "a.py::foo") ∧
        dictGet? kEdgeType e.2 = some (.aStr vDefines))) = 1 ∧
    (run_pipeline scenario_pyParse scenario_walk).graph_edges.countP
      (fun e => decide (dictGet? kEdgeType e.2 = some (.aStr vReferences))) = 1 ∧
    (run_pipeline scenario_pyParse scenario_walk).graph_edges.countP
      (fun e => decide (e.1 = (str "b.py", str "a.py::foo") ∧
        dictGet? kEdgeType e.2 = some (.aStr vReferences))) = 1 ∧
    (dictGet? (str "foo")
        (run_pipeline scenario_pyParse scenario_walk).symbol_index).map
      (fun occs =>
        (occs.countP (fun o => decide (o.type = str "definition")),
         occs.countP (fun o => decide (o.type = str "reference")),
         occs.length)) = some (1, 1, 2) := by
  decide

/-! ## C2 counterexample -/

/-- C2 counterexample: for the run over `a.py` containing `x = x`, the
symbol `x` has its recorded definition line 1 in `a.py`, and the graph
nevertheless holds a `references` edge from `a.py` to `a.py::x` with
`line_number` 1 — a reference to the symbol's own name on its own
definition line in its defining file, recorded as a references edge.
(The Python reference finder records every `Name`-load with no
definition-line exclusion; only the symbol index deduplicates it.) -/
theorem python_self_reference_edge_cex :
    dictGet? (str "a.py")
        (run_pipeline selfref_pyParse selfref_walk).module_symbols =
      some [(str "x", ⟨str "variable", 1, str "x = x", .absent⟩)] ∧
    (dictGet? (str "a.py", str "a.py::x")
        (run_pipeline selfref_pyParse selfref_walk).graph_edges).map
      (fun a => (dictGet? kEdgeType a, dictGet? kLineNumber a)) =
      some (some (.aStr vReferences), some (.aNat 1)) := by
  decide

/-! ## C4 counterexample -/

/-- C4 counterexample: the file `sub/x.py`, whose read fails, still has
a `file_index` entry and a File node of type `file` in the graph — both
are created before the `open` — contradicting the claim that such a
file appears in no output. -/
theorem failed_read_keeps_file_node_cex :
    dictGet? (str "sub/x.py")
        (run_pipeline (fun _ => none) failedread_walk).file_index =
      some 2 ∧
    (dictGet? (str "sub/x.py")
        (run_pipeline (fun _ => none) failedread_walk).graph_nodes).map
      (dictGet? kType) = some (some (.aStr vFile)) := by
  decide

/-! ## C6 counterexample -/

/-- C6 counterexample: `b.cpp` references `foo` (defined in `a.cpp`) on
two lines; the symbol index holds two `reference` occurrences for `foo`
while the graph holds a single `references` edge (the `DiGraph`
collapses repeated `(b.cpp, a.cpp::foo)` insertions), so reference
occurrences are not one-per-Reference-edge. -/
theorem symbol_index_two_refs_one_edge_cex :
    (dictGet? (str "foo")
        (run_pipeline (fun _ => none) tworefs_walk).symbol_index).map
      (fun occs => occs.countP (fun o => decide (o.type = str "reference"))) =
      some 2 ∧
    (run_pipeline (fun _ => none) tworefs_walk).graph_edges.countP
      (fun e => decide (dictGet? kEdgeType e.2 = some (.aStr vReferences))) =
      1 := by
  decide

lemma pattern_refs_in_line_skips (ms : List (Str × List (Str × SymInfo)))
    (path content : Str) (allSyms : List Str)
    (acc : List (Str × Str × Nat × Str)) (ln : Nat × Str)
    (hacc : ∀ r ∈ acc, SkipsOwnDefinitionLine ms path r) :
    ∀ r ∈ pattern_refs_in_line ms path content allSyms acc ln,
      SkipsOwnDefinitionLine ms path r := by
  unfold pattern_refs_in_line
  refine foldl_preserves
    (fun acc => ∀ r ∈ acc, SkipsOwnDefinitionLine ms path r)
    (fun acc n _ hacc => ?_) hacc
  by_cases hw : containsWord n ln.2
  · rw [if_pos hw]
    split
    · exact hacc
    · next hchk =>
      intro r hr
      rcases List.mem_append.mp hr with hr | hr
      · exact hacc r hr
      · rcases List.mem_singleton.mp hr with rfl
        refine ⟨rfl, fun syms info hsyms hinfo heq => hchk ?_⟩
        have hinfo' : dictGet? n syms = some info := hinfo
        have heq' : info.line_no = ln.1 := heq
        simp [hsyms, hinfo', heq']
  · rw [if_neg hw]
    exact hacc

/-- C2 amended: each pattern-based reference finder (C++, Java, Go)
skips a whole-word occurrence of a symbol name on the line its own
file's symbol dict records as that symbol's definition line, so none of
their reference records — and hence no `references` edge built from
them — carries the symbol's own `(file, definition line)`.  (The Python
AST finder has no such exclusion; see the counterexample.) -/
theorem pattern_finders_skip_definition_line
    (ms : List (Str × List (Str × SymInfo))) (path content : Str)
    (records : List (Str × Str × Nat × Str))
    (hrec : records = cpp_reference_records ms path content ∨
            records = java_reference_records ms path content ∨
            records = go_reference_records ms path content) :
    ∀ r ∈ records, SkipsOwnDefinitionLine ms path r := by
  have hnil : ∀ r ∈ ([] : List (Str × Str × Nat × Str)),
      SkipsOwnDefinitionLine ms path r := by
    intro r hr
    cases hr
  rcases hrec with rfl | rfl | rfl
  · exact foldl_preserves
      (fun acc => ∀ r ∈ acc, SkipsOwnDefinitionLine ms path r)
      (fun acc ln _ hacc => pattern_refs_in_line_skips ms path content _
        acc ln hacc) hnil
  · refine foldl_preserves
      (fun acc => ∀ r ∈ acc, SkipsOwnDefinitionLine ms path r)
      (fun acc ln _ hacc => ?_) hnil
    split
    · exact hacc
    · exact pattern_refs_in_line_skips ms path content _ acc ln hacc
  · refine foldl_preserves
      (fun acc => ∀ r ∈ acc, SkipsOwnDefinitionLine ms path r)
      (fun acc ln _ hacc => ?_) hnil
    split
    · exact hacc
    · exact pattern_refs_in_line_skips ms path content _ acc ln hacc

/-- Witness for the amended C2 theorem: scanning `a.cpp` itself, whose
line 2 mentions `foo`, yields the record `(foo, a.cpp, 2, _)` — and the
theorem shows it does not sit on `foo`'s definition line 1. -/

theorem pattern_finders_skip_definition_line_witness :
    (str "foo", str "a.cpp", 2,
      get_context_around_line (str "void foo();\nfoo(x)") 2) ∈
      cpp_reference_records skipdef_ms (str "a.cpp")
        (str "void foo();\nfoo(x)") ∧
    SkipsOwnDefinitionLine skipdef_ms (str "a.cpp")
      (str "foo", str "a.cpp", 2,
        get_context_around_line (str "void foo();\nfoo(x)") 2) :=
  ⟨by decide,
   pattern_finders_skip_definition_line skipdef_ms (str "a.cpp")
     (str "void foo();\nfoo(x)") _ (Or.inl rfl) _ (by decide)⟩

lemma dictGet?_dictPush [DecidableEq α] (k n : α) (x : β)
    (d : List (α × List β)) :
    dictGet? n (dictPush k x d) =
      if k = n then some ((dictGet? n d).getD [] ++ [x])
      else dictGet? n d := by
  induction d with
  | nil => by_cases h : k = n <;> simp [dictPush, dictGet?, h]
  | cons kv rest ih =>
    obtain ⟨k', v'⟩ := kv
    by_cases h1 : k' = k
    · subst h1
      by_cases h2 : k' = n <;> simp [dictPush, dictGet?, h2]
    · by_cases h2 : k' = n <;> by_cases h3 : k = n <;>
        simp_all [dictPush, dictGet?]

lemma getD_dictPush [DecidableEq α] (k n : α) (x : β)
    (d : List (α × List β)) :
    (dictGet? n (dictPush k x d)).getD [] =
      if k = n then (dictGet? n d).getD [] ++ [x]
      else (dictGet? n d).getD [] := by
  rw [dictGet?_dictPush]
  by_cases h : k = n <;> simp [h]

lemma getD_append_empty_key [DecidableEq α] (d : List (α × List β))
    (k n : α) :
    (dictGet? n (d ++ [(k, ([] : List β))])).getD [] =
      (dictGet? n d).getD [] := by
  induction d with
  | nil => by_cases h : k = n <;> simp [dictGet?, h]
  | cons kv rest ih =>
    by_cases h : kv.1 = n <;>
      simp [dictGet?, h, ih, List.cons_append]

lemma defs_inner_getD (f : Str) (n : Str) :
    ∀ (syms : List (Str × SymInfo)) (idx : List (Str × List Occurrence)),
      (dictGet? n (syms.foldl (indexDefStep f) idx)).getD [] =
        (dictGet? n idx).getD [] ++ perFileDefOccs f syms n := by
  intro syms
  induction syms with
  | nil => intro idx; simp [perFileDefOccs]
  | cons ni rest ih =>
    intro idx
    rw [List.foldl_cons, ih]
    unfold indexDefStep
    rw [getD_dictPush]
    by_cases h : ni.1 = n <;> simp [perFileDefOccs, h]

lemma defs_getD (n : Str) :
    ∀ (ms : List (Str × List (Str × SymInfo)))
      (idx : List (Str × List Occurrence)),
      (dictGet? n (ms.foldl (fun idx fs => fs.2.foldl (indexDefStep fs.1) idx)
          idx)).getD [] =
        (dictGet? n idx).getD [] ++ defOccsFor ms n := by
  intro ms
  induction ms with
  | nil => intro idx; simp [defOccsFor]
  | cons fs rest ih =>
    intro idx
    rw [List.foldl_cons, ih, defs_inner_getD]
    simp [defOccsFor]

lemma indexAddDefs_getD (ms : List (Str × List (Str × SymInfo))) (n : Str) :
    (dictGet? n (indexAddDefs ms)).getD [] = defOccsFor ms n := by
  unfold indexAddDefs
  rw [defs_getD]
  simp [dictGet?]

lemma defOccsFor_types (ms : List (Str × List (Str × SymInfo))) (n : Str) :
    ∀ o ∈ defOccsFor ms n, o.type = str "definition" := by
  intro o ho
  rcases List.mem_flatMap.mp ho with ⟨fs, _, hofs⟩
  rcases List.mem_filterMap.mp hofs with ⟨ni, _, hni⟩
  by_cases h : ni.1 = n
  · rw [if_pos h, Option.some_inj] at hni
    subst hni
    rfl
  · rw [if_neg h] at hni
    cases hni

lemma keptRefOccs_types (cur : List Occurrence)
    (rs : List (Str × Nat × Str)) :
    ∀ o ∈ keptRefOccs cur rs, o.type = str "reference" := by
  intro o ho
  rcases List.mem_map.mp ho with ⟨r, _, hr⟩
  subst hr
  rfl

lemma chkDef_append (cur A : List Occurrence) (f : Str) (l : Nat)
    (hA : ∀ o ∈ A, o.type = str "reference") :
    chkDef (cur ++ A) f l = chkDef cur f l := by
  unfold chkDef
  rw [List.any_append]
  have : A.any (fun o =>
      decide (o.file = f ∧ o.line_no = l ∧ o.type = str "definition")) =
      false := by
    rw [List.any_eq_false]
    intro o ho
    have := hA o ho
    simp [this, str]
  rw [this, Bool.or_false]

lemma keptRefOccs_cons (cur : List Occurrence) (r : Str × Nat × Str)
    (rs : List (Str × Nat × Str)) :
    keptRefOccs cur (r :: rs) =
      if chkDef cur r.1 r.2.1 then keptRefOccs cur rs
      else mkRefOcc r.1 r.2.1 r.2.2 :: keptRefOccs cur rs := by
  unfold keptRefOccs
  by_cases h : chkDef cur r.1 r.2.1 <;> simp [List.filter_cons, h]

lemma refs_inner (k : Str) (D : List Occurrence) :
    ∀ (rs : List (Str × Nat × Str)) (A : List Occurrence)
      (idx : List (Str × List Occurrence)),
      (∀ o ∈ A, o.type = str "reference") →
      (dictGet? k idx).getD [] = D ++ A →
      ((dictGet? k (rs.foldl (indexRefStep k) idx)).getD [] =
        D ++ A ++ keptRefOccs D rs) ∧
      (∀ m, m ≠ k → dictGet? m (rs.foldl (indexRefStep k) idx) =
        dictGet? m idx) := by
  intro rs
  induction rs with
  | nil =>
    intro A idx hA hidx
    constructor
    · simp [keptRefOccs, hidx]
    · intro m _
      rfl
  | cons r rest ih =>
    intro A idx hA hidx
    rw [List.foldl_cons]
    have hchk : chkDef (dictGetD k idx []) r.1 r.2.1 = chkDef D r.1 r.2.1 := by
      rw [dictGetD, hidx, chkDef_append D A r.1 r.2.1 hA]
    by_cases hc : chkDef D r.1 r.2.1
    · have hstep : indexRefStep k idx r = idx := by
        unfold indexRefStep
        rw [hchk, if_pos hc]
      rw [hstep]
      have := ih A idx hA hidx
      rw [keptRefOccs_cons, if_pos hc]
      exact this
    · have hstep : indexRefStep k idx r =
          dictPush k (mkRefOcc r.1 r.2.1 r.2.2) idx := by
        unfold indexRefStep
        rw [hchk, if_neg hc]
      rw [hstep]
      have hA' : ∀ o ∈ A ++ [mkRefOcc r.1 r.2.1 r.2.2],
          o.type = str "reference" := by
        intro o ho
        rcases List.mem_append.mp ho with ho | ho
        · exact hA o ho
        · rcases List.mem_singleton.mp ho with rfl
          rfl
      have hidx' : (dictGet? k
          (dictPush k (mkRefOcc r.1 r.2.1 r.2.2) idx)).getD [] =
          D ++ (A ++ [mkRefOcc r.1 r.2.1 r.2.2]) := by
        rw [getD_dictPush, if_pos rfl, hidx, List.append_assoc]
      have := ih (A ++ [mkRefOcc r.1 r.2.1 r.2.2]) _ hA' hidx'
      rw [keptRefOccs_cons, if_neg hc]
      constructor
      · rw [this.1]
        simp
      · intro m hm
        rw [this.2 m hm, dictGet?_dictPush, if_neg (fun h => hm h.symm)]

lemma refs_fold (D0 : Str → List Occurrence) :
    ∀ (refs : List (Str × List (Str × Nat × Str)))
      (A : Str → List Occurrence) (idx : List (Str × List Occurrence)),
      (∀ m, ∀ o ∈ A m, o.type = str "reference") →
      (∀ m, (dictGet? m idx).getD [] = D0 m ++ A m) →
      ∀ m, (dictGet? m (indexAddRefs refs idx)).getD [] =
        D0 m ++ A m ++ keptRefOccs (D0 m) (refRecsFor refs m) := by
  intro refs
  induction refs with
  | nil =>
    intro A idx hA hidx m
    simp [indexAddRefs, refRecsFor, keptRefOccs, hidx m]
  | cons nr rest ih =>
    intro A idx hA hidx m
    have hstep : indexAddRefs (nr :: rest) idx =
        indexAddRefs rest (nr.2.foldl (indexRefStep nr.1)
          (if (dictGet? nr.1 idx).isNone then idx ++ [(nr.1, [])] else idx)) := by
      rfl
    rw [hstep]
    set idx1 := if (dictGet? nr.1 idx).isNone then idx ++ [(nr.1, [])] else idx
      with hidx1
    have hidx1getD : ∀ m', (dictGet? m' idx1).getD [] = D0 m' ++ A m' := by
      intro m'
      rw [hidx1]
      split
      · rw [getD_append_empty_key]
        exact hidx m'
      · exact hidx m'
    have hinner := refs_inner nr.1 (D0 nr.1) nr.2 (A nr.1) idx1
      (hA nr.1) (hidx1getD nr.1)
    set idx2 := nr.2.foldl (indexRefStep nr.1) idx1 with hidx2
    have hA' : ∀ m', ∀ o ∈ (fun m' =>
        if m' = nr.1 then A m' ++ keptRefOccs (D0 nr.1) nr.2 else A m') m',
        o.type = str "reference" := by
      intro m' o ho
      simp only [] at ho
      by_cases h : m' = nr.1
      · rw [if_pos h] at ho
        rcases List.mem_append.mp ho with ho | ho
        · exact hA m' o ho
        · exact keptRefOccs_types _ _ o ho
      · rw [if_neg h] at ho
        exact hA m' o ho
    have hidx2getD : ∀ m', (dictGet? m' idx2).getD [] =
        D0 m' ++ (fun m' =>
          if m' = nr.1 then A m' ++ keptRefOccs (D0 nr.1) nr.2 else A m') m' := by
      intro m'
      simp only []
      by_cases h : m' = nr.1
      · subst h
        rw [if_pos rfl, hidx2, hinner.1, List.append_assoc]
      · rw [if_neg h, hidx2, hinner.2 m' h]
        exact hidx1getD m'
    have := ih _ idx2 hA' hidx2getD m
    rw [this]
    by_cases h : m = nr.1
    · subst h
      rw [if_pos rfl]
      have hrec : refRecsFor (nr :: rest) nr.1 =
          nr.2 ++ refRecsFor rest nr.1 := by
        simp [refRecsFor]
      rw [hrec]
      have hker : keptRefOccs (D0 nr.1) (nr.2 ++ refRecsFor rest nr.1) =
          keptRefOccs (D0 nr.1) nr.2 ++
            keptRefOccs (D0 nr.1) (refRecsFor rest nr.1) := by
        unfold keptRefOccs
        rw [List.filter_append, List.map_append]
      rw [hker]
      simp [List.append_assoc]
    · rw [if_neg h]
      have hrec : refRecsFor (nr :: rest) m = refRecsFor rest m := by
        simp only [refRecsFor, List.flatMap_cons]
        rw [if_neg (fun hh : nr.1 = m => h hh.symm)]
        rfl
      rw [hrec]

/-- The full characterization of a symbol-index entry: the `definition`
occurrences in `module_symbols` iteration order, followed by the
`reference` occurrences of the recorded reference list, minus those
sitting on a `(file, line)` already recorded as a definition of the
same name. -/
lemma symbol_index_entry (st : BuildState) (n : Str)
    (occs : List Occurrence)
    (hocc : dictGet? n (build_symbol_index st).symbol_index = some occs) :
    occs = defOccsFor st.module_symbols n ++
      keptRefOccs (defOccsFor st.module_symbols n)
        (refRecsFor st.symbol_references n) := by
  have hchar := refs_fold (fun m => defOccsFor st.module_symbols m)
    st.symbol_references (fun _ => []) (indexAddDefs st.module_symbols)
    (fun m o ho => absurd ho (List.not_mem_nil o))
    (fun m => by simpa using indexAddDefs_getD st.module_symbols m) n
  have : (dictGet? n (build_symbol_index st).symbol_index).getD [] =
      defOccsFor st.module_symbols n ++
        keptRefOccs (defOccsFor st.module_symbols n)
          (refRecsFor st.symbol_references n) := by
    unfold build_symbol_index
    simpa using hchar
  rw [hocc] at this
  simpa using this

lemma chkDef_of_mem (cur : List Occurrence) (o : Occurrence) (ho : o ∈ cur)
    (ht : o.type = str "definition") :
    chkDef cur o.file o.line_no = true := by
  unfold chkDef
  rw [List.any_eq_true]
  exact ⟨o, ho, by simp [ht]⟩

lemma dictGet?_isSome_iff [DecidableEq α] (n : α) (d : List (α × β)) :
    (dictGet? n d).isSome ↔ n ∈ d.map Prod.fst := by
  induction d with
  | nil => simp [dictGet?]
  | cons kv rest ih =>
    rw [List.map_cons]
    by_cases h : kv.1 = n
    · simp [dictGet?, h]
    · rw [dictGet?, if_neg h, ih, List.mem_cons]
      constructor
      · exact fun hmem => Or.inr hmem
      · rintro (h1 | h2)
        · exact absurd h1.symm h
        · exact h2

lemma dictGet?_eq_none_of_not_mem [DecidableEq α] (n : α) (d : List (α × β))
    (h : n ∉ d.map Prod.fst) : dictGet? n d = none := by
  rcases hres : dictGet? n d with _ | v
  · rfl
  · exact absurd ((dictGet?_isSome_iff n d).mp (by simp [hres])) h

lemma countP_key_nodup {β : Type _} (n : Str) :
    ∀ syms : List (Str × β), (syms.map Prod.fst).Nodup →
      syms.countP (fun ni => decide (ni.1 = n)) =
        (if (dictGet? n syms).isSome then 1 else 0) := by
  intro syms
  induction syms with
  | nil => intro _; simp [dictGet?]
  | cons kv rest ih =>
    intro hnd
    rw [List.map_cons, List.nodup_cons] at hnd
    rw [List.countP_cons]
    by_cases h : kv.1 = n
    · have hmem : n ∉ rest.map Prod.fst := h ▸ hnd.1
      have hrest : rest.countP (fun ni => decide (ni.1 = n)) = 0 := by
        rw [List.countP_eq_zero]
        intro ni hni
        simp only [decide_eq_true_eq]
        intro hh
        exact hmem (hh ▸ List.mem_map_of_mem Prod.fst hni)
      simp [dictGet?, h, hrest]
    · simp [dictGet?, h, ih hnd.2]

lemma perFileDefOccs_length (f : Str) (n : Str) :
    ∀ syms : List (Str × SymInfo),
      (perFileDefOccs f syms n).length =
        syms.countP (fun ni => decide (ni.1 = n)) := by
  intro syms
  induction syms with
  | nil => rfl
  | cons ni rest ih =>
    by_cases h : ni.1 = n <;>
      simp [perFileDefOccs, List.filterMap_cons, h, List.countP_cons, ih,
            Nat.add_comm] <;>
      simpa [perFileDefOccs] using ih

lemma perFileDefOccs_files (f : Str) (syms : List (Str × SymInfo)) (n : Str) :
    ∀ o ∈ perFileDefOccs f syms n, o.file = f := by
  intro o ho
  rcases List.mem_filterMap.mp ho with ⟨ni, _, hni⟩
  by_cases h : ni.1 = n
  · rw [if_pos h, Option.some_inj] at hni
    subst hni
    rfl
  · rw [if_neg h] at hni
    cases hni

lemma defOccsFor_countP_file (n f : Str) :
    ∀ ms : List (Str × List (Str × SymInfo)),
      (ms.map Prod.fst).Nodup →
      (∀ fs ∈ ms, (fs.2.map Prod.fst).Nodup) →
      (defOccsFor ms n).countP (fun o => decide (o.file = f)) =
        (match dictGet? f ms with
         | some syms => if (dictGet? n syms).isSome then 1 else 0
         | none => 0) := by
  intro ms
  induction ms with
  | nil => intro _ _; simp [defOccsFor, dictGet?]
  | cons fs rest ih =>
    intro hnd hsyms
    rw [List.map_cons, List.nodup_cons] at hnd
    have hl : defOccsFor (fs :: rest) n =
        perFileDefOccs fs.1 fs.2 n ++ defOccsFor rest n := by
      simp [defOccsFor]
    rw [hl, List.countP_append]
    by_cases h : fs.1 = f
    · have hrestnone : dictGet? f rest = none :=
        dictGet?_eq_none_of_not_mem f rest (h ▸ hnd.1)
      have hrest0 := ih hnd.2 (fun g hg => hsyms g (List.mem_cons_of_mem fs hg))
      rw [hrestnone] at hrest0
      have hper : (perFileDefOccs fs.1 fs.2 n).countP
          (fun o => decide (o.file = f)) =
          (perFileDefOccs fs.1 fs.2 n).length := by
        rw [List.countP_eq_length]
        intro o ho
        simp [perFileDefOccs_files fs.1 fs.2 n o ho, h]
      rw [hper, perFileDefOccs_length,
          countP_key_nodup n fs.2 (hsyms fs (List.mem_cons_self fs rest)),
          hrest0]
      simp [dictGet?, h]
    · have hper : (perFileDefOccs fs.1 fs.2 n).countP
          (fun o => decide (o.file = f)) = 0 := by
        rw [List.countP_eq_zero]
        intro o ho
        simp [perFileDefOccs_files fs.1 fs.2 n o ho, h]
      rw [hper]
      have := ih hnd.2 (fun g hg => hsyms g (List.mem_cons_of_mem fs hg))
      rw [this]
      simp [dictGet?, h]

/-- C6 amended: structure of every entry the `_build_symbol_index`
pass produces. -/
theorem symbol_index_occurrence_structure (st : BuildState) (n : Str)
    (occs : List Occurrence)
    (hocc : dictGet? n (build_symbol_index st).symbol_index = some occs) :
    SymbolIndexStructure st n occs := by
  have hchar := symbol_index_entry st n occs hocc
  set D := defOccsFor st.module_symbols n with hD
  set K := keptRefOccs (defOccsFor st.module_symbols n)
    (refRecsFor st.symbol_references n) with hK
  have hDty : ∀ o ∈ D, o.type = str "definition" :=
    defOccsFor_types st.module_symbols n
  have hKty : ∀ o ∈ K, o.type = str "reference" :=
    keptRefOccs_types _ _
  have hdisj : str "definition" ≠ str "reference" := by decide
  refine ⟨?_, ?_, ?_, ?_, ?_⟩
  · intro o ho
    rw [hchar] at ho
    rcases List.mem_append.mp ho with ho | ho
    · exact Or.inl (hDty o ho)
    · exact Or.inr (hKty o ho)
  · rw [hchar, List.filter_append]
    have h1 : D.filter (fun o => decide (o.type = str "definition")) = D := by
      rw [List.filter_eq_self]
      intro o ho
      simp [hDty o ho]
    have h2 : K.filter (fun o => decide (o.type = str "definition")) = [] := by
      rw [List.filter_eq_nil_iff]
      intro o ho
      simp [hKty o ho, hdisj.symm]
    rw [h1, h2, List.append_nil]
  · rw [hchar, List.filter_append]
    have h1 : D.filter (fun o => decide (o.type = str "reference")) = [] := by
      rw [List.filter_eq_nil_iff]
      intro o ho
      simp [hDty o ho, hdisj]
    have h2 : K.filter (fun o => decide (o.type = str "reference")) = K := by
      rw [List.filter_eq_self]
      intro o ho
      simp [hKty o ho]
    rw [h1, h2, List.nil_append]
  · intro hms hsyms
    have hcnt : ∀ f : Str, occs.countP (fun o =>
        decide (o.type = str "definition" ∧ o.file = f)) =
        D.countP (fun o => decide (o.file = f)) := by
      intro f
      rw [hchar, List.countP_append]
      have h2 : K.countP (fun o =>
          decide (o.type = str "definition" ∧ o.file = f)) = 0 := by
        rw [List.countP_eq_zero]
        intro o ho
        simp [hKty o ho, hdisj.symm]
      have h1 : D.countP (fun o =>
          decide (o.type = str "definition" ∧ o.file = f)) =
          D.countP (fun o => decide (o.file = f)) := by
        apply List.countP_congr
        intro o ho
        simp [hDty o ho]
      rw [h1, h2, Nat.add_zero]
    constructor
    · intro f syms hf
      rw [hcnt f, hD, defOccsFor_countP_file n f st.module_symbols hms hsyms,
          hf]
    · intro f hf
      rw [hcnt f, hD, defOccsFor_countP_file n f st.module_symbols hms hsyms,
          hf]
  · rintro f l ⟨⟨od, hod, hodty, hodf, hodl⟩, ⟨orf, horf, horfty, horff, horfl⟩⟩
    rw [hchar] at hod horf
    have hodD : od ∈ D := by
      rcases List.mem_append.mp hod with h | h
      · exact h
      · exact absurd hodty (by simp [hKty od h, hdisj.symm])
    have horfK : orf ∈ K := by
      rcases List.mem_append.mp horf with h | h
      · exact absurd horfty (by simp [hDty orf h, hdisj])
      · exact h
    have hchk : chkDef D f l = true := by
      have := chkDef_of_mem D od hodD hodty
      rw [hodf, hodl] at this
      exact this
    rcases List.mem_map.mp horfK with ⟨r, hrmem, hreq⟩
    rcases List.mem_filter.mp hrmem with ⟨_, hrkeep⟩
    have hrf : r.1 = f := by rw [← horff, ← hreq]; rfl
    have hrl : r.2.1 = l := by rw [← horfl, ← hreq]; rfl
    rw [hrf, hrl] at hrkeep
    simp [hchk] at hrkeep

/-- Witness for the amended C6 theorem at `idxw_state`. -/
theorem symbol_index_occurrence_structure_witness :
    dictGet? (str "f") (build_symbol_index idxw_state).symbol_index =
      some [mkDefOcc (str "a.py") ⟨str "function", 1, str "def f", .noneV⟩,
            mkRefOcc (str "b.py") 2 (str "f()")] ∧
    SymbolIndexStructure idxw_state (str "f")
      [mkDefOcc (str "a.py") ⟨str "function", 1, str "def f", .noneV⟩,
       mkRefOcc (str "b.py") 2 (str "f()")] :=
  ⟨by decide,
   symbol_index_occurrence_structure idxw_state (str "f") _ (by decide)⟩

lemma sameCore_refl (a : BuildState) : SameCore a a :=
  ⟨rfl, rfl, rfl, rfl, rfl, rfl, rfl⟩

lemma sameCore_trans {a b c : BuildState} (h1 : SameCore a b)
    (h2 : SameCore b c) : SameCore a c := by
  obtain ⟨x1, x2, x3, x4, x5, x6, x7⟩ := h1
  obtain ⟨y1, y2, y3, y4, y5, y6, y7⟩ := h2
  exact ⟨x1.trans y1, x2.trans y2, x3.trans y3, x4.trans y4, x5.trans y5,
         x6.trans y6, x7.trans y7⟩

lemma sameCore_addNode (nm : Str) (attrs : Attrs) (st : BuildState) :
    SameCore (addNode nm attrs st) st :=
  ⟨rfl, rfl, rfl, rfl, rfl, rfl, rfl⟩

lemma sameCore_addEdge (u v : Str) (attrs : Attrs) (st : BuildState) :
    SameCore (addEdge u v attrs st) st :=
  ⟨rfl, rfl, rfl, rfl, rfl, rfl, rfl⟩

lemma sameCore_foldl {α : Type _} (step : BuildState → α → BuildState)
    (h : ∀ s x, SameCore (step s x) s) :
    ∀ (l : List α) (s : BuildState), SameCore (l.foldl step s) s := by
  intro l
  induction l with
  | nil => exact fun s => sameCore_refl s
  | cons x xs ih =>
    intro s
    exact sameCore_trans (ih (step s x)) (h s x)

lemma sameCore_bgDirStep (st : BuildState) (d : Str) :
    SameCore (bgDirStep st d) st := by
  unfold bgDirStep
  refine sameCore_trans (sameCore_foldl _ ?_ _ _) ?_
  · intro s i
    try simp only []
    repeat' split
    all_goals exact ⟨rfl, rfl, rfl, rfl, rfl, rfl, rfl⟩
  · try simp only []
    repeat' split
    all_goals exact ⟨rfl, rfl, rfl, rfl, rfl, rfl, rfl⟩

lemma sameCore_bgFileStep (st : BuildState) (fi : Str × Nat) :
    SameCore (bgFileStep st fi) st := by
  unfold bgFileStep
  refine sameCore_trans (sameCore_foldl _ ?_ _ _) ?_
  · intro s sd
    exact ⟨rfl, rfl, rfl, rfl, rfl, rfl, rfl⟩
  · split
    · refine sameCore_trans (sameCore_foldl _ ?_ _ _) ?_
      · intro s ic
        exact ⟨rfl, rfl, rfl, rfl, rfl, rfl, rfl⟩
      · try simp only []
        repeat' split
        all_goals exact ⟨rfl, rfl, rfl, rfl, rfl, rfl, rfl⟩
    · try simp only []
      repeat' split
      all_goals exact ⟨rfl, rfl, rfl, rfl, rfl, rfl, rfl⟩

lemma sameCore_build_graph (st : BuildState) :
    SameCore (build_graph st) st := by
  unfold build_graph bgRefs bgImports bgFiles bgDirs
  refine sameCore_trans (sameCore_foldl _ ?_ _ _) ?_
  · intro s sr
    refine sameCore_foldl _ ?_ _ _
    intro s1 r
    refine sameCore_foldl _ ?_ _ _
    intro s2 ts
    try simp only []
    repeat' split
    all_goals exact ⟨rfl, rfl, rfl, rfl, rfl, rfl, rfl⟩
  · refine sameCore_trans (sameCore_foldl _ ?_ _ _) ?_
    · intro s fim
      refine sameCore_foldl _ ?_ _ _
      intro s1 il
      refine sameCore_foldl _ ?_ _ _
      intro s2 ts
      repeat' split
      all_goals exact ⟨rfl, rfl, rfl, rfl, rfl, rfl, rfl⟩
    · exact sameCore_trans
        (sameCore_foldl _ (fun s fi => sameCore_bgFileStep s fi) _ _)
        (sameCore_foldl _ (fun s d => sameCore_bgDirStep s d) _ _)

/-- `_analyze_file` writes only `import_relations` and
`module_symbols`. -/
lemma analyze_file_writes (p : Str → Option PyModule) (st : BuildState)
    (a c l : Str) :
    (analyze_file p st a c l).file_contents = st.file_contents ∧
    (analyze_file p st a c l).symbol_references = st.symbol_references ∧
    (analyze_file p st a c l).file_index = st.file_index ∧
    (analyze_file p st a c l).current_index = st.current_index ∧
    (analyze_file p st a c l).graph_nodes = st.graph_nodes ∧
    (analyze_file p st a c l).graph_edges = st.graph_edges ∧
    (analyze_file p st a c l).directories = st.directories ∧
    (analyze_file p st a c l).symbol_index = st.symbol_index := by
  unfold analyze_file
  repeat' split
  all_goals exact ⟨rfl, rfl, rfl, rfl, rfl, rfl, rfl, rfl⟩

/-- `_find_references_in_file` writes only `symbol_references`. -/
lemma find_refs_writes (p : Str → Option PyModule) (st : BuildState)
    (path c l : Str) :
    (find_references_in_file p st path c l).file_contents =
      st.file_contents ∧
    (find_references_in_file p st path c l).import_relations =
      st.import_relations ∧
    (find_references_in_file p st path c l).module_symbols =
      st.module_symbols ∧
    (find_references_in_file p st path c l).file_index = st.file_index ∧
    (find_references_in_file p st path c l).current_index =
      st.current_index ∧
    (find_references_in_file p st path c l).graph_nodes = st.graph_nodes ∧
    (find_references_in_file p st path c l).graph_edges = st.graph_edges ∧
    (find_references_in_file p st path c l).directories = st.directories ∧
    (find_references_in_file p st path c l).symbol_index =
      st.symbol_index := by
  unfold find_references_in_file applyRefRecords
  repeat' split
  all_goals exact ⟨rfl, rfl, rfl, rfl, rfl, rfl, rfl, rfl, rfl⟩

/-- The directory bookkeeping writes only the graph and the directory
set. -/
lemma processDirEntry_writes (st : BuildState) (relDir : Str) :
    SameCore (processDirEntry st relDir) st := by
  unfold processDirEntry
  split
  · exact sameCore_refl _
  · simp only []
    repeat' split
    all_goals exact ⟨rfl, rfl, rfl, rfl, rfl, rfl, rfl⟩

lemma dictInsert_fresh {α β : Type _} [DecidableEq α] (k : α) (v : β) :
    ∀ d : List (α × β), k ∉ d.map Prod.fst →
      dictInsert k v d = d ++ [(k, v)] := by
  intro d
  induction d with
  | nil => intro h; rfl
  | cons q t ih =>
    intro h
    obtain ⟨k1, v1⟩ := q
    have hk : k ≠ k1 := by
      intro he
      exact h (by simp [he])
    simp only [dictInsert, if_neg (Ne.symm hk)]
    rw [ih (fun hm => h (List.mem_cons_of_mem _ hm))]
    rfl

lemma processFile_fi_pos (p : Str → Option PyModule) (relDir : Str)
    (st : BuildState) (f : FileEntry)
    (h : detect_language (childPath relDir f.name) ∈ supported_languages) :
    (processFile p relDir st f).file_index =
      dictInsert (childPath relDir f.name) (st.current_index + 1)
        st.file_index ∧
    (processFile p relDir st f).current_index = st.current_index + 1 := by
  unfold processFile
  simp only []
  rw [if_pos h]
  cases hd : f.data with
  | some c =>
    simp only [hd]
    constructor
    · rw [(analyze_file_writes p _ _ _ _).2.2.1]
      split
      all_goals rfl
    · rw [(analyze_file_writes p _ _ _ _).2.2.2.1]
      split
      all_goals rfl
  | none =>
    simp only [hd]
    constructor
    all_goals (split; all_goals rfl)

lemma processFile_fi_neg (p : Str → Option PyModule) (relDir : Str)
    (st : BuildState) (f : FileEntry)
    (h : detect_language (childPath relDir f.name) ∉ supported_languages) :
    processFile p relDir st f = st := by
  unfold processFile
  simp only []
  rw [if_neg h]

lemma filesFold_FIdx (p : Str → Option PyModule) (relDir : Str) :
    ∀ (fs : List FileEntry) (K : List Str) (st : BuildState),
      FIdx K st → (K ++ inScopeNames relDir fs).Nodup →
      FIdx (K ++ inScopeNames relDir fs)
        (fs.foldl (processFile p relDir) st) := by
  intro fs
  induction fs with
  | nil =>
    intro K st hF _
    simpa [inScopeNames] using hF
  | cons f t ih =>
    intro K st hF hnd
    by_cases hs : detect_language (childPath relDir f.name) ∈
        supported_languages
    · have hnames : inScopeNames relDir (f :: t) =
          childPath relDir f.name :: inScopeNames relDir t := by
        simp [inScopeNames, hs]
      have hmem : childPath relDir f.name ∉ K := by
        rw [hnames] at hnd
        rcases List.nodup_append.1 hnd with ⟨h1, h2, hdisj⟩
        intro hK
        exact hdisj hK (List.mem_cons_self _ _)
      have hlen : K.length ≤ (List.range' 1 K.length).length := by
        simp [List.length_range']
      have hstep : FIdx (K ++ [childPath relDir f.name])
          (processFile p relDir st f) := by
        obtain ⟨ha, hb⟩ := processFile_fi_pos p relDir st f hs
        constructor
        · rw [ha, hF.1, hF.2,
             dictInsert_fresh _ _ _
               (by rw [List.map_fst_zip _ _ hlen]; exact hmem)]
          have hl2 : (K ++ [childPath relDir f.name]).length =
              K.length + 1 := by simp
          rw [hl2, List.range'_concat,
              List.zip_append (by simp [List.length_range'])]
          have hv : 1 + 1 * K.length = K.length + 1 := by omega
          rw [hv]
          rfl
        · rw [hb, hF.2]
          simp
      have hnd2 : ((K ++ [childPath relDir f.name]) ++
          inScopeNames relDir t).Nodup := by
        simpa [hnames, List.append_assoc] using hnd
      have hres := ih (K ++ [childPath relDir f.name])
        (processFile p relDir st f) hstep hnd2
      have heq : (K ++ [childPath relDir f.name]) ++
          inScopeNames relDir t = K ++ inScopeNames relDir (f :: t) := by
        simp [hnames]
      rw [List.foldl_cons, ← heq]
      exact hres
    · have hnames : inScopeNames relDir (f :: t) =
          inScopeNames relDir t := by
        simp [inScopeNames, hs]
      rw [List.foldl_cons, processFile_fi_neg p relDir st f hs, hnames]
      exact ih K st hF (by rwa [hnames] at hnd)

lemma entriesFold_FIdx (p : Str → Option PyModule) :
    ∀ (w : WalkEntries) (K : List Str) (st : BuildState),
      FIdx K st → (K ++ inScopePaths w).Nodup →
      FIdx (K ++ inScopePaths w)
        (w.foldl (fun st e => e.2.foldl (processFile p e.1)
          (processDirEntry st e.1)) st) := by
  intro w
  induction w with
  | nil =>
    intro K st hF _
    simpa [inScopePaths] using hF
  | cons e t ih =>
    intro K st hF hnd
    have hpaths : inScopePaths (e :: t) =
        inScopeNames e.1 e.2 ++ inScopePaths t := by
      simp [inScopePaths]
    have hFd : FIdx K (processDirEntry st e.1) := by
      obtain ⟨h1, h2, h3, h4, h5, h6, h7⟩ := processDirEntry_writes st e.1
      exact ⟨h5.trans hF.1, h6.trans hF.2⟩
    have hnd1 : ((K ++ inScopeNames e.1 e.2) ++ inScopePaths t).Nodup := by
      simpa [hpaths, List.append_assoc] using hnd
    have hndInner : (K ++ inScopeNames e.1 e.2).Nodup :=
      (List.nodup_append.1 hnd1).1
    have hstep := filesFold_FIdx p e.1 e.2 K (processDirEntry st e.1)
      hFd hndInner
    have hres := ih (K ++ inScopeNames e.1 e.2) _ hstep hnd1
    have heq : (K ++ inScopeNames e.1 e.2) ++ inScopePaths t =
        K ++ inScopePaths (e :: t) := by
      simp [hpaths]
    rw [List.foldl_cons, ← heq]
    exact hres

lemma find_refs_pass_fi (p : Str → Option PyModule) (st : BuildState) :
    (find_references_pass p st).file_index = st.file_index ∧
    (find_references_pass p st).current_index = st.current_index := by
  unfold find_references_pass
  refine foldl_preserves
    (fun s : BuildState => s.file_index = st.file_index ∧
      s.current_index = st.current_index) ?_ ⟨rfl, rfl⟩
  intro s x hx hP
  obtain ⟨h1, h2, h3, h4, h5, h6, h7, h8, h9⟩ :=
    find_refs_writes p s x.1 x.2 (detect_language x.1)
  exact ⟨h4.trans hP.1, h5.trans hP.2⟩

/-- C5.  Within a single run, under the well-formedness assumption that
the walk mentions each in-scope path once (as `os.walk` does), the
`file_index` keys are exactly the in-scope paths in first-encounter
order, the values are `1, 2, 3, ...` in that same order — hence
pairwise distinct and strictly increasing. -/
theorem file_index_strictly_increasing (p : Str → Option PyModule)
    (w : WalkEntries) (h : (inScopePaths w).Nodup) :
    (run_pipeline p w).file_index.map Prod.fst = inScopePaths w ∧
    (run_pipeline p w).file_index.map Prod.snd =
      List.range' 1 (inScopePaths w).length ∧
    ((run_pipeline p w).file_index.map Prod.snd).Nodup ∧
    List.Pairwise (fun i j => i < j)
      ((run_pipeline p w).file_index.map Prod.snd) := by
  have h0 : FIdx [] initState := ⟨rfl, rfl⟩
  have h1 : FIdx (inScopePaths w) (parse_first_pass p w) :=
    entriesFold_FIdx p w [] initState h0 (by simpa using h)
  have h2 : FIdx (inScopePaths w)
      (find_references_pass p (parse_first_pass p w)) := by
    obtain ⟨ha, hb⟩ := find_refs_pass_fi p (parse_first_pass p w)
    exact ⟨ha.trans h1.1, hb.trans h1.2⟩
  have h3 : FIdx (inScopePaths w) (parse_files p w) := ⟨h2.1, h2.2⟩
  have h4 : FIdx (inScopePaths w) (run_pipeline p w) := by
    obtain ⟨g1, g2, g3, g4, g5, g6, g7⟩ :=
      sameCore_build_graph (parse_files p w)
    exact ⟨g5.trans h3.1, g6.trans h3.2⟩
  have hlen : (List.range' 1 (inScopePaths w).length).length =
      (inScopePaths w).length := by
    simp [List.length_range']
  refine ⟨?_, ?_, ?_, ?_⟩
  · rw [h4.1]
    exact List.map_fst_zip _ _ hlen.ge
  · rw [h4.1]
    exact List.map_snd_zip _ _ hlen.le
  · rw [h4.1, List.map_snd_zip _ _ hlen.le]
    exact List.Pairwise.imp (fun hlt => Nat.ne_of_lt hlt)
      (List.pairwise_lt_range' 1 _)
  · rw [h4.1, List.map_snd_zip _ _ hlen.le]
    exact List.pairwise_lt_range' 1 _

/-- C5 witness: the two-file scenario satisfies the hypothesis and the
conclusion. -/
theorem file_index_strictly_increasing_witness :
    (inScopePaths scenario_walk).Nodup ∧
    ((run_pipeline scenario_pyParse scenario_walk).file_index.map
        Prod.fst = inScopePaths scenario_walk ∧
     (run_pipeline scenario_pyParse scenario_walk).file_index.map
        Prod.snd = List.range' 1 (inScopePaths scenario_walk).length ∧
     ((run_pipeline scenario_pyParse scenario_walk).file_index.map
        Prod.snd).Nodup ∧
     List.Pairwise (fun i j => i < j)
       ((run_pipeline scenario_pyParse scenario_walk).file_index.map
         Prod.snd)) :=
  ⟨by decide, file_index_strictly_increasing scenario_pyParse
    scenario_walk (by decide)⟩

/-! ## C4: what a failed read leaves behind -/

lemma mem_keys_addNodeList (nm : Str) (attrs : Attrs) :
    ∀ nodes : List (Str × Attrs),
      nm ∈ (addNodeList nm attrs nodes).map Prod.fst := by
  intro nodes
  induction nodes with
  | nil => exact List.mem_cons_self nm []
  | cons q rest ih =>
    obtain ⟨n, a⟩ := q
    show nm ∈ (if n = nm then (n, attrsMerge a attrs) :: rest
      else (n, a) :: addNodeList nm attrs rest).map Prod.fst
    by_cases h : n = nm
    · rw [if_pos h, List.map_cons]
      subst h
      exact List.mem_cons_self n _
    · rw [if_neg h, List.map_cons]
      exact List.mem_cons_of_mem n ih

lemma mem_keys_ensureNode (k nm : Str) (nodes : List (Str × Attrs))
    (h : k ∈ nodes.map Prod.fst) :
    k ∈ (ensureNode nm nodes).map Prod.fst := by
  unfold ensureNode
  split
  · exact h
  · rw [List.map_append]
    exact List.mem_append_left _ h

/-- C4 amended: a file whose read fails (the `except` branch of the
walk loop) still gets its `file_index` entry and its File node — both
precede the `open` — while every content-derived output is untouched:
`file_contents`, `module_symbols`, `import_relations`,
`symbol_references` and the symbol index gain nothing from it, and the
Directory node of a visited non-root directory is created regardless
of the failure. -/
theorem failed_read_partial_exclusion (p : Str → Option PyModule)
    (relDir : Str) (st : BuildState) (f : FileEntry)
    (hd : f.data = none)
    (hs : detect_language (childPath relDir f.name) ∈
      supported_languages) :
    (processFile p relDir st f).file_index =
      dictInsert (childPath relDir f.name) (st.current_index + 1)
        st.file_index ∧
    hasNode (processFile p relDir st f) (childPath relDir f.name) =
      true ∧
    (processFile p relDir st f).file_contents = st.file_contents ∧
    (processFile p relDir st f).module_symbols = st.module_symbols ∧
    (processFile p relDir st f).import_relations =
      st.import_relations ∧
    (processFile p relDir st f).symbol_references =
      st.symbol_references ∧
    (processFile p relDir st f).symbol_index = st.symbol_index ∧
    (relDir ≠ str "." →
      hasNode (processDirEntry st relDir) relDir = true) := by
  have hrest : (processFile p relDir st f).file_contents =
      st.file_contents ∧
      (processFile p relDir st f).module_symbols = st.module_symbols ∧
      (processFile p relDir st f).import_relations =
        st.import_relations ∧
      (processFile p relDir st f).symbol_references =
        st.symbol_references ∧
      (processFile p relDir st f).symbol_index = st.symbol_index := by
    unfold processFile
    simp only []
    rw [if_pos hs]
    simp only [hd]
    split
    all_goals exact ⟨rfl, rfl, rfl, rfl, rfl⟩
  have hnode : hasNode (processFile p relDir st f)
      (childPath relDir f.name) = true := by
    unfold processFile
    simp only []
    rw [if_pos hs]
    simp only [hd]
    split
    · exact (dictGet?_isSome_iff _ _).2
        (mem_keys_ensureNode _ _ _ (mem_keys_ensureNode _ _ _
          (mem_keys_addNodeList _ _ _)))
    · exact (dictGet?_isSome_iff _ _).2 (mem_keys_addNodeList _ _ _)
  have hdir : relDir ≠ str "." →
      hasNode (processDirEntry st relDir) relDir = true := by
    intro hne
    unfold processDirEntry
    rw [if_neg hne]
    simp only []
    split
    · exact (dictGet?_isSome_iff _ _).2
        (mem_keys_ensureNode _ _ _ (mem_keys_ensureNode _ _ _
          (mem_keys_addNodeList _ _ _)))
    · exact (dictGet?_isSome_iff _ _).2 (mem_keys_addNodeList _ _ _)
  exact ⟨(processFile_fi_pos p relDir st f hs).1, hnode, hrest.1,
    hrest.2.1, hrest.2.2.1, hrest.2.2.2.1, hrest.2.2.2.2, hdir⟩

/-- C4 witness: the unreadable `sub/x.py` of the failed-read scenario,
processed from a fresh state. -/
theorem failed_read_partial_exclusion_witness :
    ((⟨str "x.py", none⟩ : FileEntry).data = none ∧
     detect_language (childPath (str "sub") (str "x.py")) ∈
       supported_languages) ∧
    ((processFile scenario_pyParse (str "sub") initState
        ⟨str "x.py", none⟩).file_index =
      dictInsert (childPath (str "sub") (str "x.py"))
        (initState.current_index + 1) initState.file_index ∧
     hasNode (processFile scenario_pyParse (str "sub") initState
        ⟨str "x.py", none⟩) (childPath (str "sub") (str "x.py")) =
       true ∧
     (processFile scenario_pyParse (str "sub") initState
        ⟨str "x.py", none⟩).file_contents = initState.file_contents ∧
     (processFile scenario_pyParse (str "sub") initState
        ⟨str "x.py", none⟩).module_symbols =
       initState.module_symbols ∧
     (processFile scenario_pyParse (str "sub") initState
        ⟨str "x.py", none⟩).import_relations =
       initState.import_relations ∧
     (processFile scenario_pyParse (str "sub") initState
        ⟨str "x.py", none⟩).symbol_references =
       initState.symbol_references ∧
     (processFile scenario_pyParse (str "sub") initState
        ⟨str "x.py", none⟩).symbol_index = initState.symbol_index ∧
     (str "sub" ≠ str "." →
       hasNode (processDirEntry initState (str "sub")) (str "sub") =
         true)) :=
  ⟨⟨rfl, by decide⟩,
   failed_read_partial_exclusion scenario_pyParse (str "sub")
     initState ⟨str "x.py", none⟩ rfl (by decide)⟩

/-! ## C8: re-running on identical input -/

/-- C8.  The run is a function of the walk enumeration and the Python
parser alone: two runs over identical input directories (identical
walk, hence identical file set and file contents) produce identical
node lists with their attributes, identical edge lists with their
attributes, identical per-file symbol tables and an identical symbol
index.  The embedding is sequential and pure, as the source is: the
walk loop, the dicts and the graph all iterate in deterministic
insertion order. -/
theorem rebuild_deterministic (p : Str → Option PyModule)
    (w1 w2 : WalkEntries) (hw : w1 = w2) :
    (run_pipeline p w1).graph_nodes = (run_pipeline p w2).graph_nodes ∧
    (run_pipeline p w1).graph_edges = (run_pipeline p w2).graph_edges ∧
    (run_pipeline p w1).module_symbols =
      (run_pipeline p w2).module_symbols ∧
    (run_pipeline p w1).symbol_index =
      (run_pipeline p w2).symbol_index := by
  subst hw
  exact ⟨rfl, rfl, rfl, rfl⟩

/-- C8 witness: the two-file scenario, built twice. -/
theorem rebuild_deterministic_witness :
    scenario_walk = scenario_walk ∧
    ((run_pipeline scenario_pyParse scenario_walk).graph_nodes =
       (run_pipeline scenario_pyParse scenario_walk).graph_nodes ∧
     (run_pipeline scenario_pyParse scenario_walk).graph_edges =
       (run_pipeline scenario_pyParse scenario_walk).graph_edges ∧
     (run_pipeline scenario_pyParse scenario_walk).module_symbols =
       (run_pipeline scenario_pyParse scenario_walk).module_symbols ∧
     (run_pipeline scenario_pyParse scenario_walk).symbol_index =
       (run_pipeline scenario_pyParse scenario_walk).symbol_index) :=
  ⟨rfl, rebuild_deterministic scenario_pyParse scenario_walk
    scenario_walk rfl⟩

end GraphBuilder
